import Mathlib

/-!
Verification development for the AlphaScope market-intelligence pipeline
(`src/bot.py`).

The Python module is shallowly embedded as follows.

* Python strings are `Str := List Char`.  The source file's string literals
  are reproduced character-for-character (the file contains mojibake
  characters such as "ğŸ“Š"; we copy exactly the characters that appear in
  the file, using `\u` escapes).
* Values obtained from `response.json()` are modelled by the inductive type
  `JVal` (JSON `null` is Python `None`, numbers are exact rationals `ℚ`,
  objects are association lists).  Numeric behaviour is modelled over `ℚ`;
  binary floating point representation error is outside the model.
* Dynamic Python operations (`.get`, `in`, indexing, iteration, `>`,
  formatting, …) are embedded as `Except Str _` computations: `Except.error`
  models a raised exception, with a short message naming the Python
  exception class.
* `CryptoDataFetcher._make_request` (bot.py lines 56-70) converts every
  transport-level failure — timeout, connection failure, non-2xx status,
  malformed body — into `None`.  Its result is therefore modelled as
  `Option JVal`, with `Option.none` standing for any such failure; each
  adapter takes that `Option JVal` as input.
-/

set_option maxRecDepth 4000

unseal Rat.mul Rat.add Rat.sub Rat.inv Rat.ofScientific

namespace AlphaScope

/-- Python strings, as lists of characters. -/
abbrev Str := List Char

/-- A Python value produced by `json.loads` / `response.json()`:
`none` is Python `None` (JSON null), `num` covers `int`/`float` as an exact
rational, `dict` is an association list keyed by strings. -/
inductive JVal where
  | none : JVal
  | bool : Bool → JVal
  | num : ℚ → JVal
  | str : Str → JVal
  | list : List JVal → JVal
  | dict : List (Str × JVal) → JVal

mutual

/-- Structural (Python `==`) equality test on embedded values. -/
def beqJ : JVal → JVal → Bool
  | JVal.none, JVal.none => true
  | JVal.bool a, JVal.bool b => a == b
  | JVal.num a, JVal.num b => a == b
  | JVal.str a, JVal.str b => a == b
  | JVal.list a, JVal.list b => beqJList a b
  | JVal.dict a, JVal.dict b => beqJDict a b
  | _, _ => false

def beqJList : List JVal → List JVal → Bool
  | [], [] => true
  | a :: as, b :: bs => beqJ a b && beqJList as bs
  | _, _ => false

def beqJDict : List (Str × JVal) → List (Str × JVal) → Bool
  | [], [] => true
  | (k, v) :: as, (k2, v2) :: bs => k == k2 && beqJ v v2 && beqJDict as bs
  | _, _ => false

end

instance : BEq JVal := ⟨beqJ⟩

/-- `x is None`. -/
def isNone : JVal → Bool
  | JVal.none => true
  | _ => false

/-- Python truthiness (`if x:`): `None`, `False`, `0`, `""`, `[]`, `{}`
are falsy, everything else truthy. -/
def truthy : JVal → Bool
  | JVal.none => false
  | JVal.bool b => b
  | JVal.num q => decide (q ≠ 0)
  | JVal.str s => !s.isEmpty
  | JVal.list l => !l.isEmpty
  | JVal.dict d => !d.isEmpty

/-- Truthiness of an adapter result that is either absent (`None`) or a
`JVal`. -/
def truthyOpt : Option JVal → Bool
  | Option.none => false
  | Option.some v => truthy v

/-- `d.get(k, default)` — `AttributeError` on a non-dict receiver. -/
def pyGet (v : JVal) (k : Str) (default : JVal) : Except Str JVal :=
  match v with
  | JVal.dict d => Except.ok ((List.lookup k d).getD default)
  | _ => Except.error ("AttributeError: object has no attribute get".toList)

/-- `k in v` for a string `k` — membership test; `TypeError` on
non-container receivers. -/
def pyContains (k : Str) (v : JVal) : Except Str Bool :=
  match v with
  | JVal.str s => Except.ok (decide (k <:+: s))
  | JVal.list l => Except.ok (l.contains (JVal.str k))
  | JVal.dict d => Except.ok ((d.map Prod.fst).contains k)
  | _ => Except.error ("TypeError: argument is not iterable".toList)

/-- `v[k]` for a string key — `KeyError` when missing, `TypeError` on
non-dict receivers. -/
def pySubscript (v : JVal) (k : Str) : Except Str JVal :=
  match v with
  | JVal.dict d =>
      match List.lookup k d with
      | Option.some x => Except.ok x
      | Option.none => Except.error ("KeyError".toList)
  | _ => Except.error ("TypeError: object is not subscriptable".toList)

/-- `v[0]` — first element of a list or string; `KeyError`/`TypeError`
otherwise. -/
def pyIndexZero (v : JVal) : Except Str JVal :=
  match v with
  | JVal.list (x :: _) => Except.ok x
  | JVal.list [] => Except.error ("IndexError: list index out of range".toList)
  | JVal.str (c :: _) => Except.ok (JVal.str [c])
  | JVal.str [] => Except.error ("IndexError: string index out of range".toList)
  | JVal.dict _ => Except.error ("KeyError: 0".toList)
  | _ => Except.error ("TypeError: object is not subscriptable".toList)

/-- `for x in v` — the sequence of iterates; iterating a dict yields its
keys; `TypeError` on non-iterables. -/
def pyIter (v : JVal) : Except Str (List JVal) :=
  match v with
  | JVal.list l => Except.ok l
  | JVal.dict d => Except.ok (d.map (fun p => JVal.str p.1))
  | JVal.str s => Except.ok (s.map (fun c => JVal.str [c]))
  | _ => Except.error ("TypeError: object is not iterable".toList)

/-- `v[:n]` — slicing keeps strings/lists, `TypeError` otherwise. -/
def pySliceTake (v : JVal) (n : Nat) : Except Str JVal :=
  match v with
  | JVal.str s => Except.ok (JVal.str (s.take n))
  | JVal.list l => Except.ok (JVal.list (l.take n))
  | _ => Except.error ("TypeError: object is not subscriptable".toList)

/-- `s.upper()` — ASCII upcasing of a string; `AttributeError` otherwise. -/
def pyUpper (v : JVal) : Except Str Str :=
  match v with
  | JVal.str s => Except.ok (s.map Char.toUpper)
  | _ => Except.error ("AttributeError: object has no attribute upper".toList)

/-- Coerce a Python value to a rational for numeric formatting /
`abs` (`bool` counts as `0`/`1`); `TypeError` otherwise. -/
def asQ (v : JVal) : Except Str ℚ :=
  match v with
  | JVal.num q => Except.ok q
  | JVal.bool b => Except.ok (if b then 1 else 0)
  | _ => Except.error ("TypeError: bad operand type".toList)

/-- `v > q` against a numeric literal; `TypeError` for non-numeric `v`. -/
def pyGtNum (v : JVal) (q : ℚ) : Except Str Bool :=
  match v with
  | JVal.num r => Except.ok (decide (q < r))
  | JVal.bool b => Except.ok (decide (q < (if b then 1 else (0:ℚ))))
  | _ => Except.error ("TypeError: unorderable types".toList)

/-- Lexicographic `≤` on strings by code point (Python string comparison). -/
def lexLe : Str → Str → Bool
  | [], _ => true
  | _ :: _, [] => false
  | a :: s, b :: t => if a = b then lexLe s t else decide (a.val < b.val)

/-- Python `a <= b` as used by `sorted` (numbers and bools compare
numerically, strings lexicographically, mixtures raise `TypeError`). -/
def pyLe (a b : JVal) : Except Str Bool :=
  match a, b with
  | JVal.num x, JVal.num y => Except.ok (decide (x ≤ y))
  | JVal.num x, JVal.bool c => Except.ok (decide (x ≤ (if c then 1 else 0)))
  | JVal.bool c, JVal.num y => Except.ok (decide ((if c then 1 else (0:ℚ)) ≤ y))
  | JVal.bool c, JVal.bool d =>
      Except.ok (decide ((if c then 1 else (0:ℚ)) ≤ (if d then 1 else 0)))
  | JVal.str x, JVal.str y => Except.ok (lexLe x y)
  | _, _ => Except.error ("TypeError: unorderable types".toList)

/-- `int(x)`: truncation for numbers, digit parsing for strings. -/
def pyInt (v : JVal) : Except Str ℤ :=
  match v with
  | JVal.num q => Except.ok (q.num / (q.den : ℤ))
  | JVal.bool b => Except.ok (if b then 1 else 0)
  | JVal.str s =>
      let t := (s.dropWhile (· = ' ')).reverse.dropWhile (· = ' ') |>.reverse
      match t with
      | '-' :: ds =>
          if ds ≠ [] ∧ ds.all Char.isDigit then
            Except.ok (-(ds.foldl (fun acc c => 10 * acc + (c.toNat - '0'.toNat)) 0 : ℤ))
          else Except.error ("ValueError: invalid literal for int".toList)
      | '+' :: ds =>
          if ds ≠ [] ∧ ds.all Char.isDigit then
            Except.ok ((ds.foldl (fun acc c => 10 * acc + (c.toNat - '0'.toNat)) 0 : ℤ))
          else Except.error ("ValueError: invalid literal for int".toList)
      | ds =>
          if ds ≠ [] ∧ ds.all Char.isDigit then
            Except.ok ((ds.foldl (fun acc c => 10 * acc + (c.toNat - '0'.toNat)) 0 : ℤ))
          else Except.error ("ValueError: invalid literal for int".toList)
  | _ => Except.error ("TypeError: int argument must be a number".toList)

/-! ### Decimal rendering

CPython's fixed-point formatting (`f"{x:.2f}"`, `f"{x:,.0f}"`) rounds
half-to-even and keeps the sign of negative values even when they round to
zero (`format(-0.001, '.2f') = '-0.00'`).  We reproduce that over `ℚ`. -/

/-- Decimal digits of a natural number, most significant first
(structural recursion on a fuel argument, so that the kernel can reduce
it; `fuel = n + 1` always suffices). -/
def natToDigitsAux : Nat → Nat → Str → Str
  | 0, _, acc => acc
  | fuel + 1, n, acc =>
      if n < 10 then Nat.digitChar n :: acc
      else natToDigitsAux fuel (n / 10) (Nat.digitChar (n % 10) :: acc)

/-- Decimal digits of a natural number, most significant first. -/
def natToDigits (n : Nat) : Str :=
  natToDigitsAux (n + 1) n []

/-- Decimal rendering of an integer (used for `f"{i}"` interpolation). -/
def intRepr (n : ℤ) : Str :=
  (if n < 0 then ['-'] else []) ++ natToDigits n.natAbs

/-- Round to the nearest integer, ties to even (CPython float formatting). -/
def roundHalfEven (q : ℚ) : ℤ :=
  let f := q.floor
  let r := q - (f : ℚ)
  if r < 1 / 2 then f
  else if 1 / 2 < r then f + 1
  else if f % 2 = 0 then f else f + 1

/-- Take `p` fraction digits from a reversed digit list, padding with `'0'`
when the digits run out.  Returns (fraction digits reversed, remaining
integer digits reversed). -/
def splitFracAux : Nat → Str → Str × Str
  | 0, r => ([], r)
  | p + 1, [] =>
      match splitFracAux p [] with
      | (f, r) => ('0' :: f, r)
  | p + 1, d :: t =>
      match splitFracAux p t with
      | (f, r) => (d :: f, r)

/-- Assemble a fixed-point digit string from a sign, the rounded
significand's digits and the precision. -/
def fmtFromDigits (prec : Nat) (sign ds : Str) : Str :=
  let fr := splitFracAux prec ds.reverse
  let ip := if fr.2.isEmpty then ['0'] else fr.2.reverse
  if prec = 0 then sign ++ ip
  else sign ++ ip ++ ('.' :: fr.1.reverse)

/-- `f"{q:.{prec}f}"`: fixed-point rendering with `prec` digits after the
point (no point at all when `prec = 0`), sign taken from the input —
CPython keeps the minus sign of small negatives that round to zero. -/
def fmtFixed (prec : Nat) (q : ℚ) : Str :=
  fmtFromDigits prec (if q < 0 then ['-'] else [])
    (natToDigits (roundHalfEven (q * ((10 ^ prec : ℕ) : ℚ))).natAbs)

/-- Walk reversed integer digits inserting a thousands separator after
every third digit (`k` counts digits already emitted in the group). -/
def commaRev : Str → Nat → Str
  | [], _ => []
  | d :: t, 0 => d :: commaRev t 1
  | d :: t, 1 => d :: commaRev t 2
  | d :: t, _ => d :: (if t.isEmpty then [] else ',' :: commaRev t 0)

/-- Insert thousands separators into a digit string, from the right. -/
def commaGroup (ds : Str) : Str :=
  (commaRev ds.reverse 0).reverse

/-- `f"{q:,.{prec}f}"`: like `fmtFixed` with comma-grouped integer part. -/
def fmtCommaFixed (prec : Nat) (q : ℚ) : Str :=
  let fr := splitFracAux prec
    (natToDigits (roundHalfEven (q * ((10 ^ prec : ℕ) : ℚ))).natAbs).reverse
  let sign : Str := if q < 0 then ['-'] else []
  let ip := commaGroup (if fr.2.isEmpty then ['0'] else fr.2.reverse)
  if prec = 0 then sign ++ ip
  else sign ++ ip ++ ('.' :: fr.1.reverse)

/-- `f"{v:,.0f}"` applied to a dynamic value: numbers (and bools, which
are ints in Python) format, everything else raises. -/
def fmtCommaFixed0J (v : JVal) : Except Str Str := do
  let q ← asQ v
  Except.ok (fmtCommaFixed 0 q)

/-- `f"{v:.{prec}f}"` applied to a dynamic value. -/
def fmtFixedJ (prec : Nat) (v : JVal) : Except Str Str := do
  let q ← asQ v
  Except.ok (fmtFixed prec q)

/-- Strip redundant trailing zeros of a fixed-point rendering, keeping one
digit after the point (used by `str(float)`). -/
def stripTrailingZeros (s : Str) : Str :=
  if '.' ∈ s then
    let r := s.reverse.dropWhile (· = '0')
    (if r.head? = Option.some '.' then '0' :: r else r).reverse
  else s

/-- `str()`/`repr()` of a number.  For non-integral rationals we print a
(possibly rounded) 17-digit decimal expansion; the claims never inspect
these renderings. -/
def numRepr (q : ℚ) : Str :=
  if q.den = 1 then intRepr q.num else stripTrailingZeros (fmtFixed 17 q)

mutual

/-- Python `repr`, as far as the embedded values need it. -/
def pyRepr : JVal → Str
  | JVal.none => "None".toList
  | JVal.bool b => if b then "True".toList else "False".toList
  | JVal.num q => numRepr q
  | JVal.str s => '\'' :: (s ++ ['\''])
  | JVal.list l => '[' :: (pyReprList l ++ [']'])
  | JVal.dict d => '\x7b' :: (pyReprDict d ++ ['\x7d'])

def pyReprList : List JVal → Str
  | [] => []
  | [x] => pyRepr x
  | x :: xs => pyRepr x ++ (", ".toList ++ pyReprList xs)

def pyReprDict : List (Str × JVal) → Str
  | [] => []
  | [(k, v)] => '\'' :: (k ++ ('\'' :: (": ".toList ++ pyRepr v)))
  | (k, v) :: xs =>
      '\'' :: (k ++ ('\'' :: (": ".toList ++ pyRepr v))) ++
        (", ".toList ++ pyReprDict xs)

end

/-- Python `str()` as used by f-string interpolation. -/
def pyStr (v : JVal) : Str :=
  match v with
  | JVal.str s => s
  | _ => pyRepr v

/-! ### `MessageFormatter` (bot.py lines 205-249) -/

/-- `MessageFormatter.format_number` (bot.py lines 208-224): USD-prefixed
magnitude-abbreviated rendering; `None` renders `"N/A"`. -/
def format_number (num : JVal) (decimals : Nat := 2) : Except Str Str :=
  if isNone num then Except.ok ("N/A".toList)
  else do
    let q ← asQ num
    let abs_num := |q|
    if (1000000000000 : ℚ) ≤ abs_num then
      Except.ok ('$' :: (fmtFixed decimals (q / 1000000000000) ++ ['T']))
    else if (1000000000 : ℚ) ≤ abs_num then
      Except.ok ('$' :: (fmtFixed decimals (q / 1000000000) ++ ['B']))
    else if (1000000 : ℚ) ≤ abs_num then
      Except.ok ('$' :: (fmtFixed decimals (q / 1000000) ++ ['M']))
    else if (1000 : ℚ) ≤ abs_num then
      Except.ok ('$' :: (fmtFixed decimals (q / 1000) ++ ['K']))
    else
      Except.ok ('$' :: fmtFixed decimals q)

/-- The positive-direction marker of `format_percentage` (the source file's
literal rendering of an up-chart emoji followed by a space). -/
def posMarker : Str := "ğŸ“ˆ ".toList

/-- The negative-direction marker of `format_percentage`. -/
def negMarker : Str := "ğŸ“‰ ".toList

/-- `MessageFormatter.format_percentage` (bot.py lines 226-235): `None`
renders `"N/A"`; positive values get the positive marker and an explicit
`+`; everything else gets the negative marker. -/
def format_percentage (pct : JVal) : Except Str Str :=
  if isNone pct then Except.ok ("N/A".toList)
  else do
    let gt ← pyGtNum pct 0
    let q ← asQ pct
    if gt then Except.ok (posMarker ++ ('+' :: (fmtFixed 2 q ++ ['%'])))
    else Except.ok (negMarker ++ (fmtFixed 2 q ++ ['%']))

/-- `MessageFormatter.get_fear_greed_emoji` (bot.py lines 237-249). -/
def get_fear_greed_emoji (value : ℤ) : Str :=
  if 75 ≤ value then "ğŸ¤‘".toList
  else if 55 ≤ value then "ğŸ˜Š".toList
  else if 45 ≤ value then "ğŸ˜".toList
  else if 25 ≤ value then "ğŸ˜¨".toList
  else "ğŸ˜±".toList

/-! ### Monadic list combinators

A Python list comprehension with a fallible condition, a fallible loop
body, and `sorted` with a fallible comparator.  `insertionSortE` is the
standard stable insertion sort (identical element order to CPython's
stable ascending `sorted`) with comparisons in `Except`. -/

/-- `[x for x in l if p x]` with a fallible predicate, evaluated
left-to-right. -/
def filterE (p : α → Except ε Bool) : List α → Except ε (List α)
  | [] => Except.ok []
  | a :: l => do
      if (← p a) then (a :: ·) <$> filterE p l else filterE p l

/-- `[f x for x in l]` with a fallible body, evaluated left-to-right. -/
def mapE (f : α → Except ε β) : List α → Except ε (List β)
  | [] => Except.ok []
  | a :: l => do
      let b ← f a
      (b :: ·) <$> mapE f l

/-- Insert `a` into `l` before the first element `b` with `le a b`. -/
def orderedInsertE (le : α → α → Except ε Bool) (a : α) :
    List α → Except ε (List α)
  | [] => Except.ok [a]
  | b :: l => do
      if (← le a b) then Except.ok (a :: b :: l)
      else (b :: ·) <$> orderedInsertE le a l

/-- Stable insertion sort with a fallible `≤`; on inputs the comparator
totally orders, it agrees with CPython's stable ascending `sorted`. -/
def insertionSortE (le : α → α → Except ε Bool) : List α → Except ε (List α)
  | [] => Except.ok []
  | a :: l => do
      orderedInsertE le a (← insertionSortE le l)

/-! ### `CryptoDataFetcher` (bot.py lines 45-203)

Each adapter takes the `Option JVal` outcome of
`self._make_request(url, …)`: `Option.none` models the `None` that
`_make_request` returns on timeout, connection failure, non-2xx status or
malformed body, `Option.some v` models a decoded JSON body `v`. -/

/-- Normalized output of `get_market_overview` (bot.py lines 81-87).  The
code builds a 5-key dict; the adapter's empty result `{}` is modelled as
`Option.none`, a populated dict as `Option.some` of this record. -/
structure MarketOverview where
  total_market_cap_usd : JVal
  total_volume_usd : JVal
  market_cap_change_24h : JVal
  active_cryptocurrencies : JVal
  btc_dominance : JVal

/-- `CryptoDataFetcher.get_market_overview` (bot.py lines 72-87). -/
def get_market_overview (resp : Option JVal) : Except Str (Option MarketOverview) :=
  match resp with
  | Option.none => Except.ok Option.none
  | Option.some data =>
      if truthy data = false then Except.ok Option.none
      else do
        let mem ← pyContains ("data".toList) data
        if mem = false then Except.ok Option.none
        else do
          let global_data ← pySubscript data ("data".toList)
          let tmc ← pyGet global_data ("total_market_cap".toList) (JVal.dict [])
          let total_market_cap_usd ← pyGet tmc ("usd".toList) (JVal.num 0)
          let tv ← pyGet global_data ("total_volume".toList) (JVal.dict [])
          let total_volume_usd ← pyGet tv ("usd".toList) (JVal.num 0)
          let market_cap_change_24h ←
            pyGet global_data ("market_cap_change_percentage_24h_usd".toList) (JVal.num 0)
          let active_cryptocurrencies ←
            pyGet global_data ("active_cryptocurrencies".toList) (JVal.num 0)
          let mcp ← pyGet global_data ("market_cap_percentage".toList) (JVal.dict [])
          let btc_dominance ← pyGet mcp ("btc".toList) (JVal.num 0)
          Except.ok (Option.some
            { total_market_cap_usd, total_volume_usd, market_cap_change_24h,
              active_cryptocurrencies, btc_dominance })

/-- The filter condition of `get_top_movers` (bot.py lines 106-111):
`coin.get("price_change_percentage_24h") is not None and
coin.get("market_cap") is not None and coin.get("market_cap") > 1000000`,
with Python's left-to-right short-circuit evaluation. -/
def moverCond (coin : JVal) : Except Str Bool := do
  let ch ← pyGet coin ("price_change_percentage_24h".toList) JVal.none
  if isNone ch then Except.ok false
  else do
    let mc ← pyGet coin ("market_cap".toList) JVal.none
    if isNone mc then Except.ok false
    else do
      let mc2 ← pyGet coin ("market_cap".toList) JVal.none
      pyGtNum mc2 1000000

/-- The sort comparator of `get_top_movers` (bot.py line 117):
`sorted(valid_coins, key=lambda x: x["price_change_percentage_24h"])`. -/
def moverLe (x y : JVal) : Except Str Bool := do
  let kx ← pySubscript x ("price_change_percentage_24h".toList)
  let ky ← pySubscript y ("price_change_percentage_24h".toList)
  pyLe kx ky

/-- `CryptoDataFetcher.get_top_movers` (bot.py lines 89-122).  The `limit`
argument only shapes the HTTP query (`per_page`), not the computation. -/
def get_top_movers (resp : Option JVal) (_limit : Nat := 50) :
    Except Str (Option JVal × Option JVal) :=
  match resp with
  | Option.none => Except.ok (Option.none, Option.none)
  | Option.some data =>
      if truthy data = false then Except.ok (Option.none, Option.none)
      else do
        let elems ← pyIter data
        let valid_coins ← filterE moverCond elems
        if valid_coins.isEmpty then Except.ok (Option.none, Option.none)
        else do
          let sorted_coins ← insertionSortE moverLe valid_coins
          Except.ok (sorted_coins.getLast?, sorted_coins.head?)

/-- Normalized output entries of `get_trending_coins` (bot.py
lines 135-140). -/
structure TrendingRec where
  name : JVal
  symbol : JVal
  market_cap_rank : JVal
  price_btc : JVal

/-- `CryptoDataFetcher.get_trending_coins` (bot.py lines 124-142). -/
def get_trending_coins (resp : Option JVal) : Except Str (List TrendingRec) :=
  match resp with
  | Option.none => Except.ok []
  | Option.some data =>
      if truthy data = false then Except.ok []
      else do
        let mem ← pyContains ("coins".toList) data
        if mem = false then Except.ok []
        else do
          let coins ← pySubscript data ("coins".toList)
          let firstFive ← pySliceTake coins 5
          let items ← pyIter firstFive
          mapE (fun item => do
            let coin ← pyGet item ("item".toList) (JVal.dict [])
            let name ← pyGet coin ("name".toList) (JVal.str ("Unknown".toList))
            let symbol ← pyGet coin ("symbol".toList) (JVal.str [])
            let market_cap_rank ← pyGet coin ("market_cap_rank".toList) JVal.none
            let price_btc ← pyGet coin ("price_btc".toList) (JVal.num 0)
            Except.ok { name, symbol, market_cap_rank, price_btc : TrendingRec })
            items

/-- The filter condition of `get_hot_defi_projects` (bot.py
lines 153-158). -/
def defiCond (project : JVal) : Except Str Bool := do
  let ch ← pyGet project ("change_1d".toList) JVal.none
  if isNone ch then Except.ok false
  else do
    let tvl ← pyGet project ("tvl".toList) JVal.none
    if isNone tvl then Except.ok false
    else do
      let tvl2 ← pyGet project ("tvl".toList) JVal.none
      pyGtNum tvl2 1000000

/-- The comparator of `get_hot_defi_projects` (bot.py lines 161-165):
`sorted(…, key=lambda x: x.get("change_1d", 0), reverse=True)` is the
stable descending sort, i.e. the stable sort along `key y ≤ key x`. -/
def defiLe (x y : JVal) : Except Str Bool := do
  let kx ← pyGet x ("change_1d".toList) (JVal.num 0)
  let ky ← pyGet y ("change_1d".toList) (JVal.num 0)
  pyLe ky kx

/-- `CryptoDataFetcher.get_hot_defi_projects` (bot.py lines 144-167). -/
def get_hot_defi_projects (resp : Option JVal) : Except Str (List JVal) :=
  match resp with
  | Option.none => Except.ok []
  | Option.some data =>
      if truthy data = false then Except.ok []
      else do
        let elems ← pyIter data
        let valid_projects ← filterE defiCond elems
        let hot_projects ← insertionSortE defiLe valid_projects
        Except.ok (hot_projects.take 5)

/-- Normalized output of `get_fear_greed_index` (bot.py lines 178-182).
`value` went through Python `int(...)`, so it is a true integer. -/
structure FearGreedRec where
  value : ℤ
  classification : JVal
  timestamp : JVal

/-- `CryptoDataFetcher.get_fear_greed_index` (bot.py lines 169-182). -/
def get_fear_greed_index (resp : Option JVal) : Except Str (Option FearGreedRec) :=
  match resp with
  | Option.none => Except.ok Option.none
  | Option.some data =>
      if truthy data = false then Except.ok Option.none
      else do
        let mem ← pyContains ("data".toList) data
        if mem = false then Except.ok Option.none
        else do
          let dd ← pySubscript data ("data".toList)
          if truthy dd = false then Except.ok Option.none
          else do
            let index_data ← pyIndexZero dd
            let rawValue ← pyGet index_data ("value".toList) (JVal.num 0)
            let value ← pyInt rawValue
            let classification ←
              pyGet index_data ("value_classification".toList) (JVal.str ("Unknown".toList))
            let timestamp ← pyGet index_data ("timestamp".toList) (JVal.str [])
            Except.ok (Option.some { value, classification, timestamp })

/-- Normalized output of `get_bitcoin_price` (bot.py lines 199-203). -/
structure BtcRec where
  price : JVal
  change_24h : JVal
  market_cap : JVal

/-- `CryptoDataFetcher.get_bitcoin_price` (bot.py lines 184-203). -/
def get_bitcoin_price (resp : Option JVal) : Except Str (Option BtcRec) :=
  match resp with
  | Option.none => Except.ok Option.none
  | Option.some data =>
      if truthy data = false then Except.ok Option.none
      else do
        let mem ← pyContains ("bitcoin".toList) data
        if mem = false then Except.ok Option.none
        else do
          let btc_data ← pySubscript data ("bitcoin".toList)
          let price ← pyGet btc_data ("usd".toList) (JVal.num 0)
          let change_24h ← pyGet btc_data ("usd_24h_change".toList) (JVal.num 0)
          let market_cap ← pyGet btc_data ("usd_market_cap".toList) (JVal.num 0)
          Except.ok (Option.some { price, change_24h, market_cap })

/-! ### `AlphaScopeBot.create_market_summary` (bot.py lines 259-377)

The composer's `message_parts` list is built as the concatenation of one
block per section, each block exactly the lines the code appends when its
condition holds and `[]` otherwise.  `datetime.now()` is passed in as the
pre-rendered `now` string.  The string literals below reproduce the
source file's characters exactly (`\u` escapes). -/

def BOT_NAME : Str := "AlphaScope Bot".toList

def BOT_VERSION : Str := "3.1.1".toList

/-- Line 274: the report's first line. -/
def headerLine : Str :=
  "ğŸš€ *CRYPTO MARKET ALPHA* ğŸš€".toList

/-- Line 275: fixed prefix of the timestamp line. -/
def dateLinePre : Str := "ğŸ“… ".toList

/-- Line 284: fixed prefix of the Bitcoin line. -/
def btcPre : Str := "â‚¿ *Bitcoin*: ".toList

/-- Line 295: market-overview section header. -/
def moHeader : Str := "ğŸ“Š *MARKET OVERVIEW*".toList

/-- Line 296: fixed prefix of the total-cap line. -/
def totalCapPre : Str := "ğŸ’ Total Cap: ".toList

/-- Line 297: fixed prefix of the 24h-change line. -/
def change24Pre : Str := "ğŸ“Š 24h Change: ".toList

/-- Line 298: fixed prefix of the BTC-dominance line. -/
def btcDomPre : Str := "â‚¿ BTC Dom: ".toList

/-- Line 306: sentiment section header. -/
def sentimentHeader : Str := "ğŸ­ *SENTIMENT*".toList

/-- Line 307: the text between the sentiment emoji and the value. -/
def fearGreedMid : Str := " Fear & Greed: ".toList

/-- Line 308: fixed prefix of the classification line. -/
def notePre : Str := "ğŸ“ ".toList

/-- Line 314: top-movers section header. -/
def moversHeader : Str := "ğŸ“ˆ *TOP MOVERS*".toList

/-- Line 320: fixed prefix of the gainer line. -/
def goldPre : Str := "ğŸ¥‡ ".toList

/-- Line 326: fixed prefix of the loser line. -/
def bronzePre : Str := "ğŸ¥‰ ".toList

/-- Line 332: trending section header. -/
def trendingHeader : Str := "ğŸ”¥ *TRENDING*".toList

/-- Line 349: DeFi section header. -/
def defiHeader : Str := "ğŸ—ï¸ *TOP DEFI*".toList

/-- Line 350: fixed prefix of the DeFi name line. -/
def starPre : Str := "â­ ".toList

/-- Line 351: fixed prefix of the TVL line. -/
def tvlPre : Str := "ğŸ’ TVL: ".toList

/-- Line 352: fixed prefix of the DeFi category line. -/
def defiCatPre : Str := "ğŸ—ï¸ ".toList

/-- Line 358: the footer separator (twenty repetitions of the source
file's two-character rendering of the heavy horizontal bar). -/
def footerBar : Str := List.flatten (List.replicate 20 ("â”".toList))

/-- Line 359: `f"🤖 *{BOT_NAME}* v{BOT_VERSION}"` as it appears in the
file. -/
def botLine : Str :=
  "ğŸ¤– *".toList ++ BOT_NAME ++ "* v".toList ++ BOT_VERSION

/-- Line 360: the footer menu hint. -/
def menuLine : Str := "ğŸ’¡ Use /menu for more options".toList

/-- Lines 273-277: the unconditional opening lines. -/
def headerLines (now : Str) : List Str :=
  [headerLine, dateLinePre ++ now, []]

/-- Lines 357-361: the unconditional footer lines. -/
def footerLines : List Str := [footerBar, botLine, menuLine]

/-- Lines 279-286: the Bitcoin section (`if btc_data:` — the adapter's
record is a non-empty dict, hence truthy exactly when present). -/
def btcBlock : Option BtcRec → Except Str (List Str)
  | Option.none => Except.ok []
  | Option.some b => do
      let btc_price ← ('$' :: ·) <$> fmtCommaFixed0J b.price
      let btc_change ← format_percentage b.change_24h
      Except.ok [btcPre ++ btc_price ++ [' '] ++ btc_change, []]

/-- Lines 288-300: the market-overview section (`if market_overview:` —
the adapter's `{}` is the `Option.none` case). -/
def moBlock : Option MarketOverview → Except Str (List Str)
  | Option.none => Except.ok []
  | Option.some mo => do
      let total_mcap ← format_number mo.total_market_cap_usd
      let mcap_change ← format_percentage mo.market_cap_change_24h
      let domStr ← fmtFixedJ 1 mo.btc_dominance
      Except.ok [moHeader, totalCapPre ++ total_mcap, change24Pre ++ mcap_change,
        btcDomPre ++ domStr ++ ['%'], []]

/-- Lines 302-310: the sentiment section; nothing in it can raise. -/
def fgBlock : Option FearGreedRec → List Str
  | Option.none => []
  | Option.some fg =>
      [sentimentHeader,
        get_fear_greed_emoji fg.value ++ fearGreedMid ++ intRepr fg.value ++ "/100".toList,
        notePre ++ pyStr fg.classification, []]

/-- Lines 316-320 and 322-326: one mover line (gold or bronze prefix). -/
def moverLine (pre : Str) (coin : JVal) : Except Str Str := do
  let nameJ ← pyGet coin ("name".toList) (JVal.str ("Unknown".toList))
  let name ← pySliceTake nameJ 15
  let symJ ← pyGet coin ("symbol".toList) (JVal.str [])
  let symbol ← pyUpper symJ
  let change ← format_percentage (← pyGet coin ("price_change_percentage_24h".toList) (JVal.num 0))
  Except.ok (pre ++ pyStr name ++ " (".toList ++ symbol ++ ") ".toList ++ change)

/-- Lines 312-328: the top-movers section (`if gainer or loser:` with the
inner `if gainer:` / `if loser:` truthiness checks). -/
def moversBlock (gainer loser : Option JVal) : Except Str (List Str) :=
  if truthyOpt gainer || truthyOpt loser then do
    let gLines ← match gainer with
      | Option.some g =>
          if truthy g then (fun l => [l]) <$> moverLine goldPre g else Except.ok []
      | Option.none => Except.ok []
    let lLines ← match loser with
      | Option.some l =>
          if truthy l then (fun s => [s]) <$> moverLine bronzePre l else Except.ok []
      | Option.none => Except.ok []
    Except.ok ([moversHeader] ++ gLines ++ lLines ++ [[]])
  else Except.ok []

/-- Lines 330-339: the trending section
(`for i, coin in enumerate(trending[:3], 1)`). -/
def trendBlock (trending : List TrendingRec) : Except Str (List Str) :=
  if trending.isEmpty then Except.ok []
  else do
    let lines ← mapE (fun p => do
        let name ← pySliceTake p.2.name 12
        let symbol ← pyUpper p.2.symbol
        let rank_text : Str := if truthy p.2.market_cap_rank then '#' :: pyStr p.2.market_cap_rank else []
        Except.ok (intRepr (Int.ofNat p.1) ++ ". ".toList ++ pyStr name ++ " (".toList ++
          symbol ++ ") ".toList ++ rank_text))
      (List.enumFrom 1 (trending.take 3))
    Except.ok ([trendingHeader] ++ lines ++ [[]])

/-- Lines 341-354: the DeFi section (`if hot_defi:` then `hot_defi[0]`). -/
def defiBlock : List JVal → Except Str (List Str)
  | [] => Except.ok []
  | top_defi :: _ => do
      let tvl ← format_number (← pyGet top_defi ("tvl".toList) (JVal.num 0))
      let change ← format_percentage (← pyGet top_defi ("change_1d".toList) (JVal.num 0))
      let category ← pySliceTake (← pyGet top_defi ("category".toList) (JVal.str ("DeFi".toList))) 8
      let nameJ ← pySliceTake (← pyGet top_defi ("name".toList) (JVal.str ("Unknown".toList))) 15
      Except.ok [defiHeader, starPre ++ pyStr nameJ,
        tvlPre ++ tvl ++ [' '] ++ change, defiCatPre ++ pyStr category, []]

/-- Lines 271-363: assembly of `message_parts`, one block per section in
the source's order. -/
def buildParts (now : Str) (btc_data : Option BtcRec)
    (market_overview : Option MarketOverview) (fear_greed : Option FearGreedRec)
    (gainer loser : Option JVal) (trending : List TrendingRec)
    (hot_defi : List JVal) : Except Str (List Str) := do
  let btcP ← btcBlock btc_data
  let moP ← moBlock market_overview
  let mvP ← moversBlock gainer loser
  let trP ← trendBlock trending
  let dfP ← defiBlock hot_defi
  Except.ok (headerLines now ++ btcP ++ moP ++ fgBlock fear_greed ++ mvP ++ trP ++
    dfP ++ footerLines)

/-- Line 363: `"\n".join(message_parts)`. -/
def joinLines (ps : List Str) : Str := List.intercalate ['\n'] ps

/-- `AlphaScopeBot._create_error_message` (bot.py lines 369-377). -/
def create_error_message (error : Str) : Str :=
  "âš ï¸ *MARKET DATA ERROR* âš ï¸\n\n".toList ++
  "âŒ Unable to fetch data\n".toList ++
  "ğŸ” Error: ".toList ++ error.take 50 ++ "...\n\n".toList ++
  "ğŸ”„ Try again in a few moments\n".toList ++
  "ğŸ¤– *".toList ++ BOT_NAME ++ "* v".toList ++ BOT_VERSION

/-- The body of the `try:` block of `create_market_summary` (bot.py
lines 261-363): fetch all six adapters, then assemble and join the
message parts.  An `Except.error` is an exception escaping the block. -/
def buildSummary (now : Str) (rMo rMovers rTrending rDefi rFg rBtc : Option JVal) :
    Except Str Str := do
  let market_overview ← get_market_overview rMo
  let movers ← get_top_movers rMovers
  let trending ← get_trending_coins rTrending
  let hot_defi ← get_hot_defi_projects rDefi
  let fear_greed ← get_fear_greed_index rFg
  let btc_data ← get_bitcoin_price rBtc
  let parts ← buildParts now btc_data market_overview fear_greed movers.1 movers.2
    trending hot_defi
  Except.ok (joinLines parts)

/-- `AlphaScopeBot.create_market_summary` (bot.py lines 259-367): the
`try/except` returns the composed text, or the error message on any
exception. -/
def create_market_summary (now : Str)
    (rMo rMovers rTrending rDefi rFg rBtc : Option JVal) : Str :=
  match buildSummary now rMo rMovers rTrending rDefi rFg rBtc with
  | Except.ok s => s
  | Except.error e => create_error_message e

/-! ### Specification-side definitions

These definitions follow the wording of the specification (suffix tiers
chosen by absolute value; retain/sort/select rules for movers and DeFi).
They exist to be *compared* with the source embedding above; `JVal`
accessors here are total because the spec speaks about well-formed
listings. -/

/-- The suffix the spec assigns to a magnitude: `T` for `|q| ≥ 1e12`,
`B` for `|q| ≥ 1e9`, `M` for `|q| ≥ 1e6`, `K` for `|q| ≥ 1e3`, nothing
otherwise. -/
def suffixSpec (q : ℚ) : Str :=
  if (1000000000000 : ℚ) ≤ |q| then "T".toList
  else if (1000000000 : ℚ) ≤ |q| then "B".toList
  else if (1000000 : ℚ) ≤ |q| then "M".toList
  else if (1000 : ℚ) ≤ |q| then "K".toList
  else []

/-- Total field access for statements: the value stored under `k`, or
`None` when the key is missing or the receiver is not an object. -/
def fieldD (c : JVal) (k : Str) : JVal :=
  match c with
  | JVal.dict d => (List.lookup k d).getD JVal.none
  | _ => JVal.none

/-- Is this value a JSON object? -/
def isDict : JVal → Bool
  | JVal.dict _ => true
  | _ => false

/-- Is this value a number or `None`? -/
def isNumOrNone : JVal → Bool
  | JVal.none => true
  | JVal.num _ => true
  | _ => false

/-- A well-formed market-listing entry in the sense of the spec's data
model: an object whose 24h-change and market-cap fields, when present,
are numbers or null. -/
def wfCoin (c : JVal) : Bool :=
  isDict c && isNumOrNone (fieldD c ("price_change_percentage_24h".toList)) &&
    isNumOrNone (fieldD c ("market_cap".toList))

/-- Spec eligibility for movers: a *defined* (non-null, present) 24h
percentage change, and a market cap strictly greater than 1,000,000. -/
def eligibleCoin (c : JVal) : Bool :=
  match fieldD c ("price_change_percentage_24h".toList),
      fieldD c ("market_cap".toList) with
  | JVal.num _, JVal.num m => decide ((1000000 : ℚ) < m)
  | _, _ => false

/-- The 24h percentage change of a listing entry (0 when undefined —
only used on eligible entries). -/
def changeOf (c : JVal) : ℚ :=
  match fieldD c ("price_change_percentage_24h".toList) with
  | JVal.num q => q
  | _ => 0

/-- The market cap of a listing entry (0 when undefined). -/
def mcapOf (c : JVal) : ℚ :=
  match fieldD c ("market_cap".toList) with
  | JVal.num q => q
  | _ => 0

/-- Top-mover selection as the spec words it: retain eligible entries,
stable-sort ascending by 24h change, gainer = last, loser = first; both
absent when nothing is retained. -/
def topMoversSpec (coins : List JVal) : Option JVal × Option JVal :=
  let retained := coins.filter eligibleCoin
  let s := List.insertionSort (fun a b => changeOf a ≤ changeOf b) retained
  (s.getLast?, s.head?)

/-- A well-formed DeFi-protocol entry: an object whose 24h-TVL-change and
TVL fields, when present, are numbers or null. -/
def wfProtocol (p : JVal) : Bool :=
  isDict p && isNumOrNone (fieldD p ("change_1d".toList)) &&
    isNumOrNone (fieldD p ("tvl".toList))

/-- Spec eligibility for hot DeFi: a defined 24h TVL change and TVL
strictly greater than 1,000,000. -/
def eligibleProtocol (p : JVal) : Bool :=
  match fieldD p ("change_1d".toList), fieldD p ("tvl".toList) with
  | JVal.num _, JVal.num t => decide ((1000000 :
      ℚ) < t)
  | _, _ => false

/-- The 24h TVL change of a protocol entry (0 when undefined). -/
def change1dOf (p : JVal) : ℚ :=
  match fieldD p ("change_1d".toList) with
  | JVal.num q => q
  | _ => 0

/-- Hot-DeFi selection as the spec words it: retain eligible protocols,
stable-sort descending by 24h change, take the first 5. -/
def hotDefiSpec (ps : List JVal) : List JVal :=
  (List.insertionSort (fun a b => change1dOf b ≤ change1dOf a)
    (ps.filter eligibleProtocol)).take 5

/-! ### Basic evaluations of the formatter -/

example : format_number (JVal.num 999) = Except.ok ("$999.00".toList) := by rfl
example : format_number (JVal.num 1500) = Except.ok ("$1.50K".toList) := by rfl
example : format_number (JVal.num 2500000000) = Except.ok ("$2.50B".toList) := by rfl
example : format_number (JVal.num 3000000000000) = Except.ok ("$3.00T".toList) := by rfl
example : format_number JVal.none = Except.ok ("N/A".toList) := by rfl
example : format_percentage (JVal.num (-31 / 10)) =
    Except.ok (negMarker ++ ("-3.10%".toList)) := by rfl
example : format_percentage (JVal.num (525 / 100)) =
    Except.ok (posMarker ++ ("+5.25%".toList)) := by rfl
example : fmtCommaFixed 0 (12345.6 : ℚ) = "12,346".toList := by decide

/-! ### Character-level facts about the decimal renderer -/

theorem head?_mem {α : Type _} {l : List α} {c : α}
    (h : l.head? = Option.some c) : c ∈ l := by
  cases l with
  | nil => simp at h
  | cons a t => simp only [List.head?_cons, Option.some.injEq] at h; simp [h]

theorem digitChar_not_sign : ∀ d : Nat, d < 10 →
    Nat.digitChar d ≠ '-' ∧ Nat.digitChar d ≠ '+' := by decide

theorem mem_natToDigitsAux : ∀ (fuel n : Nat) (acc : Str) (c : Char),
    c ∈ natToDigitsAux fuel n acc →
    c ∈ acc ∨ ∃ d, d < 10 ∧ c = Nat.digitChar d := by
  intro fuel
  induction fuel with
  | zero => intro n acc c h; exact Or.inl h
  | succ f ih =>
      intro n acc c h
      rw [natToDigitsAux] at h
      split at h
      · rw [List.mem_cons] at h
        rcases h with h | h
        · exact Or.inr ⟨n, by omega, h⟩
        · exact Or.inl h
      · rcases ih (n / 10) (Nat.digitChar (n % 10) :: acc) c h with h | h
        · rw [List.mem_cons] at h
          rcases h with h | h
          · exact Or.inr ⟨n % 10, Nat.mod_lt _ (by omega), h⟩
          · exact Or.inl h
        · exact Or.inr h

theorem mem_natToDigits {n : Nat} {c : Char} (h : c ∈ natToDigits n) :
    ∃ d, d < 10 ∧ c = Nat.digitChar d := by
  rcases mem_natToDigitsAux (n + 1) n [] c h with h | h
  · cases h
  · exact h

theorem splitFracAux_nil_eq (p : Nat) :
    splitFracAux (p + 1) [] = ('0' :: (splitFracAux p []).1, (splitFracAux p []).2) := by
  obtain ⟨f, rr, hs⟩ : ∃ f rr, splitFracAux p [] = (f, rr) := ⟨_, _, rfl⟩
  simp [splitFracAux, hs]

theorem splitFracAux_cons_eq (p : Nat) (d : Char) (t : Str) :
    splitFracAux (p + 1) (d :: t) =
      (d :: (splitFracAux p t).1, (splitFracAux p t).2) := by
  obtain ⟨f, rr, hs⟩ : ∃ f rr, splitFracAux p t = (f, rr) := ⟨_, _, rfl⟩
  simp [splitFracAux, hs]

theorem splitFracAux_snd_subset : ∀ (p : Nat) (r : Str) (c : Char),
    c ∈ (splitFracAux p r).2 → c ∈ r := by
  intro p
  induction p with
  | zero => intro r c h; simpa [splitFracAux] using h
  | succ p ih =>
      intro r c h
      cases r with
      | nil =>
          rw [splitFracAux_nil_eq] at h
          exact ih [] c h
      | cons d t =>
          rw [splitFracAux_cons_eq] at h
          exact List.mem_cons_of_mem d (ih t c h)

theorem mem_splitFracAux_fst : ∀ (p : Nat) (r : Str) (c : Char),
    c ∈ (splitFracAux p r).1 → c = '0' ∨ c ∈ r := by
  intro p
  induction p with
  | zero => intro r c h; simp [splitFracAux] at h
  | succ p ih =>
      intro r c h
      cases r with
      | nil =>
          rw [splitFracAux_nil_eq, List.mem_cons] at h
          rcases h with h | h
          · exact Or.inl h
          · exact ih [] c h
      | cons d t =>
          rw [splitFracAux_cons_eq, List.mem_cons] at h
          rcases h with h | h
          · exact Or.inr (by simp [h])
          · rcases ih t c h with h' | h'
            · exact Or.inl h'
            · exact Or.inr (List.mem_cons_of_mem d h')

/-- Every character of a fixed-point rendering is the sign (only for a
negative input), a decimal point, a padding zero, or a digit. -/
theorem mem_fmtFixed {prec : Nat} {q : ℚ} {c : Char} (h : c ∈ fmtFixed prec q) :
    (c = '-' ∧ q < 0) ∨ c = '.' ∨ c = '0' ∨ ∃ d, d < 10 ∧ c = Nat.digitChar d := by
  simp only [fmtFixed, fmtFromDigits] at h
  set n := (roundHalfEven (q * ((10 ^ prec : ℕ) : ℚ))).natAbs with hn
  have hds : ∀ x : Char, x ∈ natToDigits n → ∃ d, d < 10 ∧ x = Nat.digitChar d :=
    fun x hx => mem_natToDigits hx
  have hsign : ∀ x : Char, x ∈ (if q < 0 then ['-'] else ([] : Str)) →
      x = '-' ∧ q < 0 := by
    intro x hx
    by_cases hq : q < 0
    · rw [if_pos hq] at hx; simp at hx; exact ⟨hx, hq⟩
    · rw [if_neg hq] at hx; cases hx
  have hip : ∀ x : Char,
      x ∈ (if (splitFracAux prec (natToDigits n).reverse).2.isEmpty then ['0']
        else (splitFracAux prec (natToDigits n).reverse).2.reverse) →
      x = '0' ∨ ∃ d, d < 10 ∧ x = Nat.digitChar d := by
    intro x hx
    split at hx
    · simp at hx; exact Or.inl hx
    · rw [List.mem_reverse] at hx
      have := splitFracAux_snd_subset prec (natToDigits n).reverse x hx
      rw [List.mem_reverse] at this
      exact Or.inr (hds x this)
  have hfr : ∀ x : Char, x ∈ (splitFracAux prec (natToDigits n).reverse).1.reverse →
      x = '0' ∨ ∃ d, d < 10 ∧ x = Nat.digitChar d := by
    intro x hx
    rw [List.mem_reverse] at hx
    rcases mem_splitFracAux_fst prec (natToDigits n).reverse x hx with h' | h'
    · exact Or.inl h'
    · rw [List.mem_reverse] at h'
      exact Or.inr (hds x h')
  split at h
  · rcases List.mem_append.mp h with h | h
    · exact Or.inl (hsign c h)
    · rcases hip c h with h' | h'
      · exact Or.inr (Or.inr (Or.inl h'))
      · exact Or.inr (Or.inr (Or.inr h'))
  · rcases List.mem_append.mp h with h | h
    · rcases List.mem_append.mp h with h | h
      · exact Or.inl (hsign c h)
      · rcases hip c h with h' | h'
        · exact Or.inr (Or.inr (Or.inl h'))
        · exact Or.inr (Or.inr (Or.inr h'))
    · rw [List.mem_cons] at h
      rcases h with h | h
      · exact Or.inr (Or.inl h)
      · rcases hfr c h with h' | h'
        · exact Or.inr (Or.inr (Or.inl h'))
        · exact Or.inr (Or.inr (Or.inr h'))

theorem plus_not_mem_fmtFixed (prec : Nat) (q : ℚ) : '+' ∉ fmtFixed prec q := by
  intro h
  rcases mem_fmtFixed h with ⟨h', _⟩ | h' | h' | ⟨d, hd, h'⟩
  · exact absurd h' (by decide)
  · exact absurd h' (by decide)
  · exact absurd h' (by decide)
  · exact absurd h'.symm (digitChar_not_sign d hd).2

theorem minus_not_mem_fmtFixed_of_nonneg {prec : Nat} {q : ℚ} (hq : 0 ≤ q) :
    '-' ∉ fmtFixed prec q := by
  intro h
  rcases mem_fmtFixed h with ⟨_, h'⟩ | h' | h' | ⟨d, hd, h'⟩
  · exact absurd hq (not_le.mpr h')
  · exact absurd h' (by decide)
  · exact absurd h' (by decide)
  · exact absurd h'.symm (digitChar_not_sign d hd).1

/-- The rendering starts with `'-'` exactly for negative inputs. -/
theorem fmtFixed_head_iff (prec : Nat) (q : ℚ) :
    (fmtFixed prec q).head? = Option.some '-' ↔ q < 0 := by
  constructor
  · intro h
    by_contra hq
    exact minus_not_mem_fmtFixed_of_nonneg (not_lt.mp hq) (head?_mem h)
  · intro hq
    simp only [fmtFixed, fmtFromDigits, if_pos hq]
    split <;> simp

/-! ### C7 and C8: the `MessageFormatter` contracts -/

/-- C7: `format_number` renders exactly `"N/A"` for an absent input, and
otherwise a `$`-prefixed body carrying exactly the suffix the spec
assigns by absolute value (`T` ≥ 1e12, `B` ≥ 1e9, `M` ≥ 1e6, `K` ≥ 1e3,
none otherwise), the body starting with `'-'` exactly for negative
inputs (sign preserved); the spec's concrete examples evaluate as stated
at the default 2 decimal places, including a negative input that uses
its absolute value's tier. -/
theorem c7_format_number_tiers :
    format_number JVal.none = Except.ok ("N/A".toList) ∧
    (∀ q : ℚ, ∃ body : Str,
      format_number (JVal.num q) = Except.ok ('$' :: (body ++ suffixSpec q)) ∧
      (body.head? = Option.some '-' ↔ q < 0)) ∧
    format_number (JVal.num 999) = Except.ok ("$999.00".toList) ∧
    format_number (JVal.num 1500) = Except.ok ("$1.50K".toList) ∧
    format_number (JVal.num 2500000000) = Except.ok ("$2.50B".toList) ∧
    format_number (JVal.num 3000000000000) = Except.ok ("$3.00T".toList) ∧
    format_number (JVal.num (-2500000000)) = Except.ok ("$-2.50B".toList) := by
  refine ⟨by rfl, ?_, by rfl, by rfl, by rfl, by rfl, by rfl⟩
  intro q
  have hun : format_number (JVal.num q) =
      (if (1000000000000 : ℚ) ≤ |q| then
        Except.ok ('$' :: (fmtFixed 2 (q / 1000000000000) ++ ['T']))
      else if (1000000000 : ℚ) ≤ |q| then
        Except.ok ('$' :: (fmtFixed 2 (q / 1000000000) ++ ['B']))
      else if (1000000 : ℚ) ≤ |q| then
        Except.ok ('$' :: (fmtFixed 2 (q / 1000000) ++ ['M']))
      else if (1000 : ℚ) ≤ |q| then
        Except.ok ('$' :: (fmtFixed 2 (q / 1000) ++ ['K']))
      else Except.ok ('$' :: fmtFixed 2 q)) := by
    simp only [format_number, isNone, asQ, Bind.bind, Except.bind,
      Bool.false_eq_true, if_false]
  rw [hun]
  by_cases h1 : (1000000000000 : ℚ) ≤ |q|
  · refine ⟨fmtFixed 2 (q / 1000000000000), ?_, ?_⟩
    · simp [suffixSpec, h1]
    · rw [fmtFixed_head_iff, div_lt_iff₀ (by norm_num), zero_mul]
  by_cases h2 : (1000000000 : ℚ) ≤ |q|
  · refine ⟨fmtFixed 2 (q / 1000000000), ?_, ?_⟩
    · simp [suffixSpec, h1, h2]
    · rw [fmtFixed_head_iff, div_lt_iff₀ (by norm_num), zero_mul]
  by_cases h3 : (1000000 : ℚ) ≤ |q|
  · refine ⟨fmtFixed 2 (q / 1000000), ?_, ?_⟩
    · simp [suffixSpec, h1, h2, h3]
    · rw [fmtFixed_head_iff, div_lt_iff₀ (by norm_num), zero_mul]
  by_cases h4 : (1000 : ℚ) ≤ |q|
  · refine ⟨fmtFixed 2 (q / 1000), ?_, ?_⟩
    · simp [suffixSpec, h1, h2, h3, h4]
    · rw [fmtFixed_head_iff, div_lt_iff₀ (by norm_num), zero_mul]
  · refine ⟨fmtFixed 2 q, ?_, fmtFixed_head_iff 2 q⟩
    simp [suffixSpec, h1, h2, h3, h4]

/-- C8: `format_percentage` renders exactly `"N/A"` for an absent input;
every strictly positive value gets the positive-direction marker and an
explicit `'+'` before the two-decimal number (which contains no `'-'`);
every value `≤ 0` — including exactly 0 — gets the negative-direction
marker with no `'+'` anywhere in the number, whose leading `'-'` appears
exactly when the value is strictly negative; the spec's concrete
examples evaluate as stated. -/
theorem c8_format_percentage_signs :
    format_percentage JVal.none = Except.ok ("N/A".toList) ∧
    (∀ q : ℚ, 0 < q → ∃ body : Str,
      format_percentage (JVal.num q) =
        Except.ok (posMarker ++ ('+' :: (body ++ ['%']))) ∧
      '-' ∉ body) ∧
    (∀ q : ℚ, q ≤ 0 → ∃ body : Str,
      format_percentage (JVal.num q) = Except.ok (negMarker ++ (body ++ ['%'])) ∧
      '+' ∉ body ∧ (body.head? = Option.some '-' ↔ q < 0)) ∧
    format_percentage (JVal.num (525 / 100)) =
      Except.ok (posMarker ++ ("+5.25%".toList)) ∧
    format_percentage (JVal.num (-31 / 10)) =
      Except.ok (negMarker ++ ("-3.10%".toList)) ∧
    format_percentage (JVal.num 0) = Except.ok (negMarker ++ ("0.00%".toList)) := by
  have hun : ∀ q : ℚ, format_percentage (JVal.num q) =
      (if 0 < q then Except.ok (posMarker ++ ('+' :: (fmtFixed 2 q ++ ['%'])))
      else Except.ok (negMarker ++ (fmtFixed 2 q ++ ['%']))) := by
    intro q
    simp only [format_percentage, isNone, pyGtNum, asQ, Bind.bind, Except.bind]
    by_cases h : 0 < q <;> simp [h]
  refine ⟨by rfl, ?_, ?_, by rfl, by rfl, by rfl⟩
  · intro q hq
    refine ⟨fmtFixed 2 q, ?_, minus_not_mem_fmtFixed_of_nonneg (le_of_lt hq)⟩
    rw [hun, if_pos hq]
  · intro q hq
    refine ⟨fmtFixed 2 q, ?_, plus_not_mem_fmtFixed 2 q, fmtFixed_head_iff 2 q⟩
    rw [hun, if_neg (not_lt.mpr hq)]

/-- Witness for C8 at the concrete inputs 5.25 and −3.1. -/
theorem c8_format_percentage_signs_witness :
    (∃ body : Str,
      format_percentage (JVal.num (525 / 100)) =
        Except.ok (posMarker ++ ('+' :: (body ++ ['%']))) ∧ '-' ∉ body) ∧
    (∃ body : Str,
      format_percentage (JVal.num (-31 / 10)) =
        Except.ok (negMarker ++ (body ++ ['%'])) ∧
      '+' ∉ body ∧ (body.head? = Option.some '-' ↔ ((-31 : ℚ) / 10) < 0)) :=
  ⟨c8_format_percentage_signs.2.1 (525 / 100) (by norm_num),
    c8_format_percentage_signs.2.2.1 ((-31) / 10) (by norm_num)⟩

/-! ### C1: omitted monetary fields are *not* left absent -/

/-- Binding a successful `Except` computation just applies the
continuation. -/
theorem ok_bind {ε α β : Type _} (a : α) (f : α → Except ε β) :
    (Except.ok a : Except ε α) >>= f = f a := rfl

/-- The residual computation of `get_market_overview` on a payload whose
`data` object is `gd`: every output field is a `.get` with a numeric (or
`{}`-then-numeric) default. -/
theorem gmo_fields (gd : List (Str × JVal)) :
    get_market_overview (Option.some (JVal.dict [("data".toList, JVal.dict gd)])) =
      Except.bind (pyGet ((List.lookup ("total_market_cap".toList) gd).getD (JVal.dict []))
          ("usd".toList) (JVal.num 0)) (fun total_market_cap_usd =>
        Except.bind (pyGet ((List.lookup ("total_volume".toList) gd).getD (JVal.dict []))
            ("usd".toList) (JVal.num 0)) (fun total_volume_usd =>
          Except.bind (Except.ok
              ((List.lookup ("market_cap_change_percentage_24h_usd".toList) gd).getD (JVal.num 0)))
            (fun market_cap_change_24h =>
            Except.bind (Except.ok
                ((List.lookup ("active_cryptocurrencies".toList) gd).getD (JVal.num 0)))
              (fun active_cryptocurrencies =>
              Except.bind (pyGet ((List.lookup ("market_cap_percentage".toList) gd).getD (JVal.dict []))
                  ("btc".toList) (JVal.num 0)) (fun btc_dominance =>
                Except.ok (Option.some
                  { total_market_cap_usd, total_volume_usd, market_cap_change_24h,
                    active_cryptocurrencies, btc_dominance })))))) := rfl

/-- The residual computation of `get_bitcoin_price` on a payload whose
`bitcoin` object is `bd`: every output field is a `.get` with default 0. -/
theorem gbp_fields (bd : List (Str × JVal)) :
    get_bitcoin_price (Option.some (JVal.dict [("bitcoin".toList, JVal.dict bd)])) =
      Except.ok (Option.some
        { price := (List.lookup ("usd".toList) bd).getD (JVal.num 0),
          change_24h := (List.lookup ("usd_24h_change".toList) bd).getD (JVal.num 0),
          market_cap := (List.lookup ("usd_market_cap".toList) bd).getD (JVal.num 0) }) := rfl

/-- C1 counterexample: a global-stats payload whose `data` object omits
every monetary field.  The claim says the adapter leaves the omitted
field absent rather than substituting zero; the code returns the
fabricated number `0` (and `JVal.num 0` is not the absent value). -/
theorem c1_counterexample_zero_fabricated :
    get_market_overview (Option.some (JVal.dict [("data".toList, JVal.dict [])])) =
      Except.ok (Option.some
        { total_market_cap_usd := JVal.num 0, total_volume_usd := JVal.num 0,
          market_cap_change_24h := JVal.num 0, active_cryptocurrencies := JVal.num 0,
          btc_dominance := JVal.num 0 }) ∧
    JVal.num 0 ≠ JVal.none :=
  ⟨by rfl, fun h => JVal.noConfusion h⟩

/-- C1 amended: when the top-level payload (or its required top-level
key) is missing, the adapters do return the absent result; but when an
individual monetary/percentage field is omitted inside a present
payload, the global-snapshot and primary-asset adapters substitute the
default `0` for it, so field-level absence does not propagate. -/
theorem c1_amended_zero_defaults :
    get_market_overview Option.none = Except.ok Option.none ∧
    get_bitcoin_price Option.none = Except.ok Option.none ∧
    (∀ gd : List (Str × JVal),
      List.lookup ("total_market_cap".toList) gd = Option.none →
      List.lookup ("total_volume".toList) gd = Option.none →
      List.lookup ("market_cap_change_percentage_24h_usd".toList) gd = Option.none →
      List.lookup ("active_cryptocurrencies".toList) gd = Option.none →
      List.lookup ("market_cap_percentage".toList) gd = Option.none →
      get_market_overview (Option.some (JVal.dict [("data".toList, JVal.dict gd)])) =
        Except.ok (Option.some
          { total_market_cap_usd := JVal.num 0, total_volume_usd := JVal.num 0,
            market_cap_change_24h := JVal.num 0, active_cryptocurrencies := JVal.num 0,
            btc_dominance := JVal.num 0 })) ∧
    (∀ bd : List (Str × JVal),
      List.lookup ("usd".toList) bd = Option.none →
      List.lookup ("usd_24h_change".toList) bd = Option.none →
      List.lookup ("usd_market_cap".toList) bd = Option.none →
      get_bitcoin_price (Option.some (JVal.dict [("bitcoin".toList, JVal.dict bd)])) =
        Except.ok (Option.some
          { price := JVal.num 0, change_24h := JVal.num 0, market_cap := JVal.num 0 })) := by
  refine ⟨by rfl, by rfl, ?_, ?_⟩
  · intro gd h1 h2 h3 h4 h5
    rw [gmo_fields, h1, h2, h3, h4, h5]
    rfl
  · intro bd h1 h2 h3
    rw [gbp_fields, h1, h2, h3]
    rfl

/-- Witness for the C1 amended theorem: the all-absent `data` object and
the all-absent `bitcoin` object. -/
theorem c1_amended_zero_defaults_witness :
    get_market_overview (Option.some (JVal.dict [("data".toList, JVal.dict [])])) =
      Except.ok (Option.some
        { total_market_cap_usd := JVal.num 0, total_volume_usd := JVal.num 0,
          market_cap_change_24h := JVal.num 0, active_cryptocurrencies := JVal.num 0,
          btc_dominance := JVal.num 0 }) ∧
    get_bitcoin_price (Option.some (JVal.dict [("bitcoin".toList, JVal.dict [])])) =
      Except.ok (Option.some
        { price := JVal.num 0, change_24h := JVal.num 0, market_cap := JVal.num 0 }) :=
  ⟨c1_amended_zero_defaults.2.2.1 [] rfl rfl rfl rfl rfl,
    c1_amended_zero_defaults.2.2.2 [] rfl rfl rfl⟩

/-! ### C2: adapters swallow transport failures but can raise on
well-formed JSON of unexpected shape -/

/-- C2 counterexample: `get_top_movers` applied to the well-formed JSON
body `5` (a number) raises a `TypeError` while iterating, so an adapter
*can* propagate an exception for a well-formed JSON value of unexpected
shape. -/
theorem c2_counterexample_raises_on_odd_shape :
    get_top_movers (Option.some (JVal.num 5)) =
      Except.error ("TypeError: object is not iterable".toList) ∧
    get_top_movers (Option.some (JVal.dict [("a".toList, JVal.num 1)])) =
      Except.error ("AttributeError: object has no attribute get".toList) :=
  ⟨by rfl, by rfl⟩

/-- C2 amended: on timeout, connection failure, non-2xx status or
malformed body (all of which `_make_request` turns into `None`), every
adapter returns its empty result without raising; raising is possible
only for a well-formed JSON body of unexpected shape. -/
theorem c2_amended_failure_inputs_empty :
    get_market_overview Option.none = Except.ok Option.none ∧
    get_top_movers Option.none = Except.ok (Option.none, Option.none) ∧
    get_trending_coins Option.none = Except.ok [] ∧
    get_hot_defi_projects Option.none = Except.ok [] ∧
    get_fear_greed_index Option.none = Except.ok Option.none ∧
    get_bitcoin_price Option.none = Except.ok Option.none :=
  ⟨rfl, rfl, rfl, rfl, rfl, rfl⟩

/-! ### Lifting the monadic adapter code to pure list operations -/

theorem isNumOrNone_cases {v : JVal} (h : isNumOrNone v = true) :
    v = JVal.none ∨ ∃ q, v = JVal.num q := by
  cases v <;> simp_all [isNumOrNone]

theorem wfCoin_dict {c : JVal} (h : wfCoin c = true) : ∃ d, c = JVal.dict d := by
  cases c <;> first
    | exact ⟨_, rfl⟩
    | simp [wfCoin, isDict] at h

theorem wfProtocol_dict {p : JVal} (h : wfProtocol p = true) :
    ∃ d, p = JVal.dict d := by
  cases p <;> first
    | exact ⟨_, rfl⟩
    | simp [wfProtocol, isDict] at h

theorem pyGet_dict (d : List (Str × JVal)) (k : Str) (default : JVal) :
    pyGet (JVal.dict d) k default =
      Except.ok ((List.lookup k d).getD default) := rfl

theorem fieldD_dict (d : List (Str × JVal)) (k : Str) :
    fieldD (JVal.dict d) k = (List.lookup k d).getD JVal.none := rfl

/-- Under well-formedness, the mover filter condition computes exactly
the spec's eligibility predicate. -/
theorem moverCond_wf {c : JVal} (h : wfCoin c = true) :
    moverCond c = Except.ok (eligibleCoin c) := by
  obtain ⟨d, rfl⟩ := wfCoin_dict h
  have hch := (by simp_all [wfCoin] :
    isNumOrNone (fieldD (JVal.dict d) ("price_change_percentage_24h".toList)) = true)
  have hmc := (by simp_all [wfCoin] :
    isNumOrNone (fieldD (JVal.dict d) ("market_cap".toList)) = true)
  rw [fieldD_dict] at hch hmc
  simp only [moverCond, pyGet_dict, ok_bind, eligibleCoin, fieldD_dict]
  rcases isNumOrNone_cases hch with h1 | ⟨q, h1⟩ <;>
      rcases isNumOrNone_cases hmc with h2 | ⟨m, h2⟩ <;>
    rw [h1, h2] <;> rfl

/-- Under well-formedness, the DeFi filter condition computes exactly
the spec's eligibility predicate. -/
theorem defiCond_wf {p : JVal} (h : wfProtocol p = true) :
    defiCond p = Except.ok (eligibleProtocol p) := by
  obtain ⟨d, rfl⟩ := wfProtocol_dict h
  have hch := (by simp_all [wfProtocol] :
    isNumOrNone (fieldD (JVal.dict d) ("change_1d".toList)) = true)
  have htv := (by simp_all [wfProtocol] :
    isNumOrNone (fieldD (JVal.dict d) ("tvl".toList)) = true)
  rw [fieldD_dict] at hch htv
  simp only [defiCond, pyGet_dict, ok_bind, eligibleProtocol, fieldD_dict]
  rcases isNumOrNone_cases hch with h1 | ⟨q, h1⟩ <;>
      rcases isNumOrNone_cases htv with h2 | ⟨m, h2⟩ <;>
    rw [h1, h2] <;> rfl

/-- An eligible coin's 24h-change key is present and numeric, so the
sort key extraction succeeds and yields `changeOf`. -/
theorem eligible_subscript_change {x : JVal} (h : eligibleCoin x = true) :
    pySubscript x ("price_change_percentage_24h".toList) =
      Except.ok (JVal.num (changeOf x)) := by
  cases x with
  | dict d =>
      rcases hl : List.lookup ("price_change_percentage_24h".toList) d with _ | v
      · rw [eligibleCoin, fieldD_dict, hl] at h; simp at h
      · cases v <;>
          simp_all [eligibleCoin, fieldD_dict, changeOf, pySubscript, hl]
  | none => rw [eligibleCoin] at h; simp [fieldD] at h
  | bool b => rw [eligibleCoin] at h; simp [fieldD] at h
  | num q => rw [eligibleCoin] at h; simp [fieldD] at h
  | str s => rw [eligibleCoin] at h; simp [fieldD] at h
  | list l => rw [eligibleCoin] at h; simp [fieldD] at h

/-- An eligible protocol's `change_1d` key is present and numeric, so
the sort-key `.get` succeeds and yields `change1dOf`. -/
theorem eligible_get_change1d {x : JVal} (h : eligibleProtocol x = true) :
    pyGet x ("change_1d".toList) (JVal.num 0) =
      Except.ok (JVal.num (change1dOf x)) := by
  cases x with
  | dict d =>
      rcases hl : List.lookup ("change_1d".toList) d with _ | v
      · rw [eligibleProtocol, fieldD_dict, hl] at h; simp at h
      · cases v <;>
          simp_all [eligibleProtocol, fieldD_dict, change1dOf, pyGet_dict, hl]
  | none => rw [eligibleProtocol] at h; simp [fieldD] at h
  | bool b => rw [eligibleProtocol] at h; simp [fieldD] at h
  | num q => rw [eligibleProtocol] at h; simp [fieldD] at h
  | str s => rw [eligibleProtocol] at h; simp [fieldD] at h
  | list l => rw [eligibleProtocol] at h; simp [fieldD] at h

/-- For eligible coins the comparator of `get_top_movers` is the pure
ascending comparison of 24h changes. -/
theorem moverLe_eligible {x y : JVal} (hx : eligibleCoin x = true)
    (hy : eligibleCoin y = true) :
    moverLe x y = Except.ok (decide (changeOf x ≤ changeOf y)) := by
  simp only [moverLe]
  rw [eligible_subscript_change hx, eligible_subscript_change hy]
  rfl

/-- For eligible protocols the comparator of `get_hot_defi_projects` is
the pure descending comparison of 24h TVL changes. -/
theorem defiLe_eligible {x y : JVal} (hx : eligibleProtocol x = true)
    (hy : eligibleProtocol y = true) :
    defiLe x y = Except.ok (decide (change1dOf y ≤ change1dOf x)) := by
  simp only [defiLe]
  rw [eligible_get_change1d hx, eligible_get_change1d hy]
  rfl

/-- A fallible filter whose condition succeeds pointwise is the pure
filter. -/
theorem filterE_lift {α ε : Type _} {p : α → Bool} {f : α → Except ε Bool} :
    ∀ {l : List α}, (∀ a ∈ l, f a = Except.ok (p a)) →
      filterE f l = Except.ok (l.filter p) := by
  intro l
  induction l with
  | nil => intro _; rfl
  | cons a t ih =>
      intro h
      have ha := h a (List.mem_cons_self a t)
      have ht := ih fun x hx => h x (List.mem_cons_of_mem a hx)
      rw [filterE, ha, ok_bind]
      by_cases hp : p a
      · simp [hp, ht, List.filter_cons, Except.map]
      · simp [hp, ht, List.filter_cons, Except.map, Bool.eq_false_iff.mpr hp]

/-- A fallible ordered insert whose comparator succeeds pointwise is the
pure `List.orderedInsert`. -/
theorem orderedInsertE_lift {α ε : Type _} {r : α → α → Prop} [DecidableRel r]
    {le : α → α → Except ε Bool} {a : α} :
    ∀ {l : List α}, (∀ b ∈ l, le a b = Except.ok (decide (r a b))) →
      orderedInsertE le a l = Except.ok (List.orderedInsert r a l) := by
  intro l
  induction l with
  | nil => intro _; rfl
  | cons b t ih =>
      intro h
      have hb := h b (List.mem_cons_self b t)
      have ht := ih fun x hx => h x (List.mem_cons_of_mem b hx)
      rw [orderedInsertE, hb, ok_bind, List.orderedInsert]
      by_cases hr : r a b
      · simp [hr]
      · simp [hr, ht, Except.map]

/-- A fallible insertion sort whose comparator succeeds pointwise is the
pure stable `List.insertionSort`. -/
theorem insertionSortE_lift {α ε : Type _} {r : α → α → Prop} [DecidableRel r]
    {le : α → α → Except ε Bool} :
    ∀ {l : List α}, (∀ x ∈ l, ∀ y ∈ l, le x y = Except.ok (decide (r x y))) →
      insertionSortE le l = Except.ok (List.insertionSort r l) := by
  intro l
  induction l with
  | nil => intro _; rfl
  | cons a t ih =>
      intro h
      have ht := ih fun x hx y hy =>
        h x (List.mem_cons_of_mem a hx) y (List.mem_cons_of_mem a hy)
      rw [insertionSortE, ht, ok_bind, List.insertionSort]
      exact orderedInsertE_lift fun b hb => by
        have hb' : b ∈ t := (List.mem_insertionSort r).mp hb
        exact h a (List.mem_cons_self a t) b (List.mem_cons_of_mem a hb')

/-- `Except.bind` of a success applies the continuation. -/
theorem bindE_ok {ε α β : Type _} (a : α) (f : α → Except ε β) :
    Except.bind (Except.ok a) f = f a := rfl

/-- The residual computation of `get_top_movers` on a non-empty decoded
listing: filter, emptiness check, stable sort, then last/first. -/
theorem gtm_cons (a : JVal) (t : List JVal) :
    get_top_movers (Option.some (JVal.list (a :: t))) =
      Except.bind (filterE moverCond (a :: t)) (fun valid_coins =>
        if valid_coins.isEmpty then Except.ok (Option.none, Option.none)
        else Except.bind (insertionSortE moverLe valid_coins) (fun sorted_coins =>
          Except.ok (sorted_coins.getLast?, sorted_coins.head?))) := rfl

/-- The residual computation of `get_hot_defi_projects` on a non-empty
decoded listing: filter, stable descending sort, take 5. -/
theorem ghd_cons (a : JVal) (t : List JVal) :
    get_hot_defi_projects (Option.some (JVal.list (a :: t))) =
      Except.bind (filterE defiCond (a :: t)) (fun valid_projects =>
        Except.bind (insertionSortE defiLe valid_projects) (fun hot_projects =>
          Except.ok (hot_projects.take 5))) := rfl

/-- On a well-formed market listing, `get_top_movers` computes exactly
the spec-side selection `topMoversSpec`. -/
theorem top_movers_eq_spec (coins : List JVal)
    (hwf : ∀ c ∈ coins, wfCoin c = true) :
    get_top_movers (Option.some (JVal.list coins)) =
      Except.ok (topMoversSpec coins) := by
  cases coins with
  | nil => rfl
  | cons a t =>
      rw [gtm_cons, filterE_lift (fun c hc => moverCond_wf (hwf c hc)), bindE_ok]
      by_cases hv : ((a :: t).filter eligibleCoin).isEmpty = true
      · rw [if_pos hv]
        rw [List.isEmpty_iff] at hv
        simp [topMoversSpec, hv]
      · rw [if_neg hv,
          insertionSortE_lift (r := fun x y => changeOf x ≤ changeOf y)
            (fun x hx y hy => by
              rw [moverLe_eligible (List.mem_filter.mp hx).2 (List.mem_filter.mp hy).2]),
          bindE_ok]
        rfl

/-- On a well-formed protocol listing, `get_hot_defi_projects` computes
exactly the spec-side selection `hotDefiSpec`. -/
theorem hot_defi_eq_spec (ps : List JVal)
    (hwf : ∀ p ∈ ps, wfProtocol p = true) :
    get_hot_defi_projects (Option.some (JVal.list ps)) =
      Except.ok (hotDefiSpec ps) := by
  cases ps with
  | nil => rfl
  | cons a t =>
      rw [ghd_cons, filterE_lift (fun p hp => defiCond_wf (hwf p hp)), bindE_ok,
        insertionSortE_lift (r := fun x y => change1dOf y ≤ change1dOf x)
          (fun x hx y hy => by
            rw [defiLe_eligible (List.mem_filter.mp hx).2 (List.mem_filter.mp hy).2]),
        bindE_ok]
      rfl

theorem mem_of_getLast? {α : Type _} : ∀ {l : List α} {a : α},
    l.getLast? = Option.some a → a ∈ l := by
  intro l
  induction l with
  | nil => intro a h; cases h
  | cons x t ih =>
      intro a h
      cases t with
      | nil => simp_all [List.getLast?]
      | cons y u =>
          rw [List.getLast?_cons_cons] at h
          exact List.mem_cons_of_mem x (ih h)

/-- In a list sorted ascending by 24h change, the head's change is at
most the last element's change. -/
theorem sorted_head_getLast {l : List JVal}
    (hs : l.Sorted (fun a b => changeOf a ≤ changeOf b)) {g l0 : JVal}
    (hh : l.head? = Option.some l0) (hg : l.getLast? = Option.some g) :
    changeOf l0 ≤ changeOf g := by
  cases l with
  | nil => cases hh
  | cons x t =>
      have hx : l0 = x := by simpa using hh.symm
      subst hx
      cases t with
      | nil =>
          have : g = l0 := by simpa [List.getLast?] using hg.symm
          subst this
          exact le_refl _
      | cons y u =>
          rw [List.getLast?_cons_cons] at hg
          have hmem : g ∈ y :: u := mem_of_getLast? hg
          exact (List.sorted_cons.mp hs).1 g hmem

/-! ### C3, C9, C10: the filter/sort/select contracts -/

/-- C3: on every well-formed market listing the adapter computes exactly
the spec's selection — retain entries with a defined 24h change and
market cap strictly above 1,000,000, stable-sort ascending by change,
gainer = last, loser = first, both absent when nothing is retained — and
an entry whose market cap is exactly 1,000,000 is never eligible. -/
theorem c3_top_mover_selection :
    ∀ coins : List JVal, (∀ c ∈ coins, wfCoin c = true) →
      get_top_movers (Option.some (JVal.list coins)) =
        Except.ok (topMoversSpec coins) ∧
      (∀ c : JVal, fieldD c ("market_cap".toList) = JVal.num 1000000 →
        eligibleCoin c = false) := by
  intro coins hwf
  refine ⟨top_movers_eq_spec coins hwf, ?_⟩
  intro c hc
  unfold eligibleCoin
  rw [hc]
  cases fieldD c ("price_change_percentage_24h".toList) <;> rfl

/-- Witness for C3: a concrete four-entry listing containing an entry
with no defined change and an entry at exactly the 1,000,000 market-cap
threshold. -/
theorem c3_top_mover_selection_witness :
    get_top_movers (Option.some (JVal.list
      [JVal.dict [("price_change_percentage_24h".toList, JVal.num 2),
          ("market_cap".toList, JVal.num 5000000)],
        JVal.dict [("price_change_percentage_24h".toList, JVal.none),
          ("market_cap".toList, JVal.num 4000000)],
        JVal.dict [("price_change_percentage_24h".toList, JVal.num 9),
          ("market_cap".toList, JVal.num 1000000)],
        JVal.dict [("price_change_percentage_24h".toList, JVal.num (-7)),
          ("market_cap".toList, JVal.num 2000000)]])) =
      Except.ok (topMoversSpec
        [JVal.dict [("price_change_percentage_24h".toList, JVal.num 2),
          ("market_cap".toList, JVal.num 5000000)],
        JVal.dict [("price_change_percentage_24h".toList, JVal.none),
          ("market_cap".toList, JVal.num 4000000)],
        JVal.dict [("price_change_percentage_24h".toList, JVal.num 9),
          ("market_cap".toList, JVal.num 1000000)],
        JVal.dict [("price_change_percentage_24h".toList, JVal.num (-7)),
          ("market_cap".toList, JVal.num 2000000)]]) ∧
    (∀ c : JVal, fieldD c ("market_cap".toList) = JVal.num 1000000 →
      eligibleCoin c = false) :=
  c3_top_mover_selection _ (by intro c hc; fin_cases hc <;> rfl)

/-- C10: on every well-formed market listing, gainer and loser are both
absent or both present; a single eligible entry is returned as both; and
a present pair always satisfies loser's change ≤ gainer's change. -/
theorem c10_mover_pairing :
    ∀ coins : List JVal, (∀ c ∈ coins, wfCoin c = true) →
    ∀ res : Option JVal × Option JVal,
      get_top_movers (Option.some (JVal.list coins)) = Except.ok res →
      ((res.1 = Option.none ↔ res.2 = Option.none) ∧
       (∀ c : JVal, coins.filter eligibleCoin = [c] →
          res = (Option.some c, Option.some c)) ∧
       (∀ g l0 : JVal, res = (Option.some g, Option.some l0) →
          changeOf l0 ≤ changeOf g)) := by
  intro coins hwf res hres
  rw [top_movers_eq_spec coins hwf] at hres
  injection hres with hres
  subst hres
  haveI : IsTotal JVal (fun a b => changeOf a ≤ changeOf b) :=
    ⟨fun a b => le_total _ _⟩
  haveI : IsTrans JVal (fun a b => changeOf a ≤ changeOf b) :=
    ⟨fun _ _ _ hab hbc => le_trans hab hbc⟩
  refine ⟨?_, ?_, ?_⟩
  · show (List.insertionSort _ _).getLast? = Option.none ↔
      (List.insertionSort _ _).head? = Option.none
    rw [List.getLast?_eq_none_iff, List.head?_eq_none_iff]
  · intro c hc
    show ((List.insertionSort _ (coins.filter eligibleCoin)).getLast?,
        (List.insertionSort _ (coins.filter eligibleCoin)).head?) = _
    rw [hc]
    rfl
  · intro g l0 hres
    have hg : (List.insertionSort (fun a b => changeOf a ≤ changeOf b)
        (coins.filter eligibleCoin)).getLast? = Option.some g :=
      congrArg Prod.fst hres
    have hl : (List.insertionSort (fun a b => changeOf a ≤ changeOf b)
        (coins.filter eligibleCoin)).head? = Option.some l0 :=
      congrArg Prod.snd hres
    exact sorted_head_getLast
      (List.sorted_insertionSort _ (coins.filter eligibleCoin)) hl hg

/-- Witness for C10: a listing with a single eligible entry. -/
theorem c10_mover_pairing_witness :
    ((topMoversSpec
        [JVal.dict [("price_change_percentage_24h".toList, JVal.num 3),
          ("market_cap".toList, JVal.num 2000000)],
          JVal.dict [("market_cap".toList, JVal.num 900000)]]).1 = Option.none ↔
      (topMoversSpec
        [JVal.dict [("price_change_percentage_24h".toList, JVal.num 3),
          ("market_cap".toList, JVal.num 2000000)],
          JVal.dict [("market_cap".toList, JVal.num 900000)]]).2 = Option.none) ∧
    (∀ c : JVal,
      ([JVal.dict [("price_change_percentage_24h".toList, JVal.num 3),
          ("market_cap".toList, JVal.num 2000000)],
        JVal.dict [("market_cap".toList, JVal.num 900000)]].filter eligibleCoin) = [c] →
      topMoversSpec
        [JVal.dict [("price_change_percentage_24h".toList, JVal.num 3),
          ("market_cap".toList, JVal.num 2000000)],
          JVal.dict [("market_cap".toList, JVal.num 900000)]] =
        (Option.some c, Option.some c)) ∧
    (∀ g l0 : JVal,
      topMoversSpec
        [JVal.dict [("price_change_percentage_24h".toList, JVal.num 3),
          ("market_cap".toList, JVal.num 2000000)],
          JVal.dict [("market_cap".toList, JVal.num 900000)]] =
        (Option.some g, Option.some l0) →
      changeOf l0 ≤ changeOf g) :=
  c10_mover_pairing _ (by intro c hc; fin_cases hc <;> rfl) _
    (top_movers_eq_spec _ (by intro c hc; fin_cases hc <;> rfl))

/-- C9: on every well-formed protocol listing the adapter computes
exactly the spec's hot-DeFi selection — retain protocols with a defined
24h TVL change and TVL strictly above 1,000,000, sort descending by
change, take the first 5 — and the result indeed has at most five
entries, is sorted descending, contains only eligible protocols, and a
protocol at exactly the TVL threshold is never eligible. -/
theorem c9_hot_defi_selection :
    ∀ ps : List JVal, (∀ p ∈ ps, wfProtocol p = true) →
      get_hot_defi_projects (Option.some (JVal.list ps)) =
        Except.ok (hotDefiSpec ps) ∧
      (hotDefiSpec ps).length ≤ 5 ∧
      List.Sorted (fun a b => change1dOf b ≤ change1dOf a) (hotDefiSpec ps) ∧
      (∀ x ∈ hotDefiSpec ps, eligibleProtocol x = true) ∧
      (∀ p : JVal, fieldD p ("tvl".toList) = JVal.num 1000000 →
        eligibleProtocol p = false) := by
  intro ps hwf
  haveI : IsTotal JVal (fun a b => change1dOf b ≤ change1dOf a) :=
    ⟨fun a b => le_total _ _⟩
  haveI : IsTrans JVal (fun a b => change1dOf b ≤ change1dOf a) :=
    ⟨fun _ _ _ hab hbc => le_trans hbc hab⟩
  refine ⟨hot_defi_eq_spec ps hwf, List.length_take_le 5 _, ?_, ?_, ?_⟩
  · exact List.Pairwise.sublist (List.take_sublist 5 _)
      (List.sorted_insertionSort _ (ps.filter eligibleProtocol))
  · intro x hx
    have hx' : x ∈ List.insertionSort (fun a b => change1dOf b ≤ change1dOf a)
        (ps.filter eligibleProtocol) := List.mem_of_mem_take hx
    exact (List.mem_filter.mp ((List.mem_insertionSort _).mp hx')).2
  · intro p hp
    unfold eligibleProtocol
    rw [hp]
    cases fieldD p ("change_1d".toList) <;> rfl

/-- Witness for C9: a concrete listing with six eligible protocols (so
the take-5 truncation is exercised) plus one at exactly the threshold
and one with no defined change. -/
theorem c9_hot_defi_selection_witness :
    get_hot_defi_projects (Option.some (JVal.list
      [JVal.dict [("change_1d".toList, JVal.num 1), ("tvl".toList, JVal.num 2000000)],
        JVal.dict [("change_1d".toList, JVal.num 4), ("tvl".toList, JVal.num 3000000)],
        JVal.dict [("change_1d".toList, JVal.num 2), ("tvl".toList, JVal.num 1000000)],
        JVal.dict [("change_1d".toList, JVal.none), ("tvl".toList, JVal.num 9000000)],
        JVal.dict [("change_1d".toList, JVal.num 2), ("tvl".toList, JVal.num 4000000)],
        JVal.dict [("change_1d".toList, JVal.num 6), ("tvl".toList, JVal.num 5000000)],
        JVal.dict [("change_1d".toList, JVal.num 0), ("tvl".toList, JVal.num 6000000)],
        JVal.dict [("change_1d".toList, JVal.num 5), ("tvl".toList, JVal.num 7000000)],
        JVal.dict [("change_1d".toList, JVal.num 3), ("tvl".toList, JVal.num 8000000)]])) =
      Except.ok (hotDefiSpec
        [JVal.dict [("change_1d".toList, JVal.num 1), ("tvl".toList, JVal.num 2000000)],
          JVal.dict [("change_1d".toList, JVal.num 4), ("tvl".toList, JVal.num 3000000)],
          JVal.dict [("change_1d".toList, JVal.num 2), ("tvl".toList, JVal.num 1000000)],
          JVal.dict [("change_1d".toList, JVal.none), ("tvl".toList, JVal.num 9000000)],
          JVal.dict [("change_1d".toList, JVal.num 2), ("tvl".toList, JVal.num 4000000)],
          JVal.dict [("change_1d".toList, JVal.num 6), ("tvl".toList, JVal.num 5000000)],
          JVal.dict [("change_1d".toList, JVal.num 0), ("tvl".toList, JVal.num 6000000)],
          JVal.dict [("change_1d".toList, JVal.num 5), ("tvl".toList, JVal.num 7000000)],
          JVal.dict [("change_1d".toList, JVal.num 3), ("tvl".toList, JVal.num 8000000)]]) :=
  (c9_hot_defi_selection _ (by intro p hp; fin_cases hp <;> rfl)).1

/-! ### C4: which tied entry wins the gainer slot -/

theorem getLast?_cons_of_ne_nil {α : Type _} {b : α} {X : List α} (h : X ≠ []) :
    (b :: X).getLast? = X.getLast? := by
  cases X with
  | nil => exact absurd rfl h
  | cons x t => rw [List.getLast?_cons_cons]

theorem orderedInsert_ne_nil {α : Type _} (r : α → α → Prop) [DecidableRel r]
    (a : α) (l : List α) : List.orderedInsert r a l ≠ [] := by
  cases l with
  | nil => simp [List.orderedInsert]
  | cons b t =>
      rw [List.orderedInsert]
      split <;> simp

/-- The last element of a sorted list after an ordered insert: the old
last element, unless the inserted element's key beats it strictly. -/
theorem getLast?_orderedInsert (a : JVal) :
    ∀ (s : List JVal) (g' : JVal),
      s.Sorted (fun x y => changeOf x ≤ changeOf y) →
      s.getLast? = Option.some g' →
      (List.orderedInsert (fun x y => changeOf x ≤ changeOf y) a s).getLast? =
        if changeOf a ≤ changeOf g' then Option.some g' else Option.some a := by
  intro s
  induction s with
  | nil => intro g' _ hg; cases hg
  | cons b t ih =>
      intro g' hs hg
      cases t with
      | nil =>
          have hb : g' = b := by simpa [List.getLast?] using hg.symm
          subst hb
          rw [List.orderedInsert]
          by_cases hab : changeOf a ≤ changeOf g'
          · rw [if_pos hab, if_pos hab]; rfl
          · rw [if_neg hab, if_neg hab]; rfl
      | cons c u =>
          rw [List.getLast?_cons_cons] at hg
          have hsort := List.sorted_cons.mp hs
          have hbg : changeOf b ≤ changeOf g' := hsort.1 g' (mem_of_getLast? hg)
          rw [List.orderedInsert]
          by_cases hab : changeOf a ≤ changeOf b
          · rw [if_pos hab, if_pos (le_trans hab hbg),
              List.getLast?_cons_cons, List.getLast?_cons_cons]
            exact hg
          · rw [if_neg hab,
              getLast?_cons_of_ne_nil (orderedInsert_ne_nil _ a (c :: u))]
            exact ih g' hsort.2 hg

/-- Stability of the ascending insertion sort, phrased on the last
element: the last element of the sort is the *last* entry of the input
attaining the maximal key — everything before it in the input has key
`≤`, everything after it has key strictly `<`. -/
theorem sort_last_decomp :
    ∀ l : List JVal, l ≠ [] →
      ∃ g E₁ E₂,
        (List.insertionSort (fun x y => changeOf x ≤ changeOf y) l).getLast? =
          Option.some g ∧
        l = E₁ ++ g :: E₂ ∧ (∀ c ∈ E₁, changeOf c ≤ changeOf g) ∧
        (∀ c ∈ E₂, changeOf c < changeOf g) := by
  haveI : IsTotal JVal (fun a b => changeOf a ≤ changeOf b) :=
    ⟨fun a b => le_total _ _⟩
  haveI : IsTrans JVal (fun a b => changeOf a ≤ changeOf b) :=
    ⟨fun _ _ _ hab hbc => le_trans hab hbc⟩
  intro l
  induction l with
  | nil => intro h; exact absurd rfl h
  | cons a t ih =>
      intro _
      cases t with
      | nil => exact ⟨a, [], [], rfl, rfl, by simp, by simp⟩
      | cons b u =>
          obtain ⟨g', E₁, E₂, hlast, hdec, h₁, h₂⟩ := ih (by simp)
          have hstep : (List.insertionSort (fun x y => changeOf x ≤ changeOf y)
              (a :: b :: u)).getLast? =
              if changeOf a ≤ changeOf g' then Option.some g' else Option.some a :=
            getLast?_orderedInsert a _ g'
              (List.sorted_insertionSort _ (b :: u)) hlast
          by_cases hag : changeOf a ≤ changeOf g'
          · refine ⟨g', a :: E₁, E₂, by rw [hstep, if_pos hag],
              by rw [List.cons_append, hdec], ?_, h₂⟩
            intro c hc
            rcases List.mem_cons.mp hc with rfl | hc
            · exact hag
            · exact h₁ c hc
          · push_neg at hag
            refine ⟨a, [], b :: u, by rw [hstep, if_neg (not_le.mpr hag)],
              rfl, by simp, ?_⟩
            intro c hc
            rw [hdec] at hc
            rcases List.mem_append.mp hc with hc | hc
            · exact lt_of_le_of_lt (h₁ c hc) hag
            · rcases List.mem_cons.mp hc with rfl | hc
              · exact hag
              · exact lt_trans (h₂ c hc) hag

/-- C4 counterexample: a market-cap-descending listing with two eligible
entries tied for the maximal 24h change.  The claim says the tied entry
with the *higher* market cap wins the gainer slot; the code returns the
*lower*-cap (later) one as gainer (the higher-cap one surfaces as
loser). -/
theorem c4_counterexample_higher_cap_loses :
    get_top_movers (Option.some (JVal.list
      [JVal.dict [("price_change_percentage_24h".toList, JVal.num 5),
          ("market_cap".toList, JVal.num 2000000)],
        JVal.dict [("price_change_percentage_24h".toList, JVal.num 5),
          ("market_cap".toList, JVal.num 1500000)]])) =
      Except.ok
        (Option.some (JVal.dict [("price_change_percentage_24h".toList, JVal.num 5),
            ("market_cap".toList, JVal.num 1500000)]),
          Option.some (JVal.dict [("price_change_percentage_24h".toList, JVal.num 5),
            ("market_cap".toList, JVal.num 2000000)])) ∧
    changeOf (JVal.dict [("price_change_percentage_24h".toList, JVal.num 5),
        ("market_cap".toList, JVal.num 2000000)]) =
      changeOf (JVal.dict [("price_change_percentage_24h".toList, JVal.num 5),
        ("market_cap".toList, JVal.num 1500000)]) ∧
    mcapOf (JVal.dict [("price_change_percentage_24h".toList, JVal.num 5),
        ("market_cap".toList, JVal.num 1500000)]) <
      mcapOf (JVal.dict [("price_change_percentage_24h".toList, JVal.num 5),
        ("market_cap".toList, JVal.num 2000000)]) ∧
    Option.some (JVal.dict [("price_change_percentage_24h".toList, JVal.num 5),
        ("market_cap".toList, JVal.num 1500000)]) ≠
      Option.some (JVal.dict [("price_change_percentage_24h".toList, JVal.num 5),
        ("market_cap".toList, JVal.num 2000000)]) := by
  refine ⟨by rfl, by rfl, by decide, ?_⟩
  intro h
  injection h with h
  have h2 : mcapOf (JVal.dict [("price_change_percentage_24h".toList, JVal.num 5),
      ("market_cap".toList, JVal.num 1500000)]) =
      mcapOf (JVal.dict [("price_change_percentage_24h".toList, JVal.num 5),
        ("market_cap".toList, JVal.num 2000000)]) := by rw [h]
  rw [show mcapOf (JVal.dict [("price_change_percentage_24h".toList, JVal.num 5),
      ("market_cap".toList, JVal.num 1500000)]) = (1500000 : ℚ) from rfl,
    show mcapOf (JVal.dict [("price_change_percentage_24h".toList, JVal.num 5),
      ("market_cap".toList, JVal.num 2000000)]) = (2000000 : ℚ) from rfl] at h2
  norm_num at h2

/-- C4 amended: on a well-formed, market-cap-descending listing, the
gainer attains the maximal 24h change, but among tied maxima it is the
entry *latest* in the input order that wins the slot — every eligible
entry after the gainer has strictly smaller change, and every eligible
entry tied with the gainer has market cap at least the gainer's (the
lower-cap tied entry wins, not the higher-cap one). -/
theorem c4_tie_goes_to_lower_cap :
    ∀ coins : List JVal, (∀ c ∈ coins, wfCoin c = true) →
      coins.Sorted (fun a b => mcapOf b ≤ mcapOf a) →
      ∀ (g : JVal) (lr : Option JVal),
        get_top_movers (Option.some (JVal.list coins)) =
          Except.ok (Option.some g, lr) →
        (∀ c ∈ coins.filter eligibleCoin, changeOf c ≤ changeOf g) ∧
        (∃ E₁ E₂, coins.filter eligibleCoin = E₁ ++ g :: E₂ ∧
          ∀ c ∈ E₂, changeOf c < changeOf g) ∧
        (∀ c ∈ coins.filter eligibleCoin, changeOf c = changeOf g →
          mcapOf g ≤ mcapOf c) := by
  intro coins hwf hdesc g lr hres
  rw [top_movers_eq_spec coins hwf] at hres
  injection hres with hres
  have hg : (List.insertionSort (fun x y => changeOf x ≤ changeOf y)
      (coins.filter eligibleCoin)).getLast? = Option.some g :=
    congrArg Prod.fst hres
  have hne : coins.filter eligibleCoin ≠ [] := by
    intro h0
    rw [h0] at hg
    cases hg
  obtain ⟨g0, E₁, E₂, hlast, hdec, h₁, h₂⟩ := sort_last_decomp _ hne
  rw [hlast] at hg
  injection hg with hg
  subst hg
  refine ⟨?_, ⟨E₁, E₂, hdec, h₂⟩, ?_⟩
  · intro c hc
    rw [hdec] at hc
    rcases List.mem_append.mp hc with hc | hc
    · exact h₁ c hc
    · rcases List.mem_cons.mp hc with rfl | hc
      · exact le_refl _
      · exact le_of_lt (h₂ c hc)
  · intro c hc hceq
    have hpair : (coins.filter eligibleCoin).Pairwise
        (fun a b => mcapOf b ≤ mcapOf a) :=
      List.Pairwise.sublist (List.filter_sublist coins) hdesc
    rw [hdec] at hc hpair
    rcases List.mem_append.mp hc with hc | hc
    · exact (List.pairwise_append.mp hpair).2.2 c hc g0
        (List.mem_cons_self g0 E₂)
    · rcases List.mem_cons.mp hc with rfl | hc
      · exact le_refl _
      · exact absurd hceq (ne_of_lt (h₂ c hc))

/-- Witness for the C4 amended theorem at the counterexample listing. -/
theorem c4_tie_goes_to_lower_cap_witness :
    (∀ c ∈ ([JVal.dict [("price_change_percentage_24h".toList, JVal.num 5),
          ("market_cap".toList, JVal.num 2000000)],
        JVal.dict [("price_change_percentage_24h".toList, JVal.num 5),
          ("market_cap".toList, JVal.num 1500000)]].filter eligibleCoin),
      changeOf c ≤ changeOf (JVal.dict
        [("price_change_percentage_24h".toList, JVal.num 5),
          ("market_cap".toList, JVal.num 1500000)])) ∧
    (∃ E₁ E₂,
      [JVal.dict [("price_change_percentage_24h".toList, JVal.num 5),
          ("market_cap".toList, JVal.num 2000000)],
        JVal.dict [("price_change_percentage_24h".toList, JVal.num 5),
          ("market_cap".toList, JVal.num 1500000)]].filter eligibleCoin =
        E₁ ++ JVal.dict [("price_change_percentage_24h".toList, JVal.num 5),
          ("market_cap".toList, JVal.num 1500000)] :: E₂ ∧
      ∀ c ∈ E₂, changeOf c < changeOf (JVal.dict
        [("price_change_percentage_24h".toList, JVal.num 5),
          ("market_cap".toList, JVal.num 1500000)])) ∧
    (∀ c ∈ ([JVal.dict [("price_change_percentage_24h".toList, JVal.num 5),
          ("market_cap".toList, JVal.num 2000000)],
        JVal.dict [("price_change_percentage_24h".toList, JVal.num 5),
          ("market_cap".toList, JVal.num 1500000)]].filter eligibleCoin),
      changeOf c = changeOf (JVal.dict
        [("price_change_percentage_24h".toList, JVal.num 5),
          ("market_cap".toList, JVal.num 1500000)]) →
      mcapOf (JVal.dict [("price_change_percentage_24h".toList, JVal.num 5),
        ("market_cap".toList, JVal.num 1500000)]) ≤ mcapOf c) :=
  c4_tie_goes_to_lower_cap _
    (by intro c hc; fin_cases hc <;> rfl)
    (by constructor
        · intro c hc
          fin_cases hc
          decide
        · simp)
    _ _ (by rfl)

/-! ### C5: composition failure yields the fallback report -/

/-- C5: whenever the body of the composition step raises (an
`Except.error` escaping the assembly of the report), `create_market_summary`
returns the fixed-format fallback report rather than propagating the
error; the fallback embeds the error description truncated to at most
50 characters and contains the retry instruction. -/
theorem c5_composition_failure_fallback :
    ∀ (now : Str) (rMo rMovers rTrending rDefi rFg rBtc : Option JVal) (e : Str),
      buildSummary now rMo rMovers rTrending rDefi rFg rBtc = Except.error e →
      create_market_summary now rMo rMovers rTrending rDefi rFg rBtc =
        create_error_message e ∧
      create_error_message e =
        "âš ï¸ *MARKET DATA ERROR* âš ï¸\n\n".toList ++
        "âŒ Unable to fetch data\n".toList ++
        "ğŸ” Error: ".toList ++ e.take 50 ++ "...\n\n".toList ++
        "ğŸ”„ Try again in a few moments\n".toList ++
        "ğŸ¤– *".toList ++ BOT_NAME ++ "* v".toList ++ BOT_VERSION ∧
      (e.take 50).length ≤ 50 ∧
      (∃ s t : Str, create_error_message e =
        s ++ "Try again in a few moments".toList ++ t) := by
  intro now rMo rMovers rTrending rDefi rFg rBtc e h
  refine ⟨?_, by rfl, List.length_take_le 50 e, ?_⟩
  · simp only [create_market_summary]
    rw [h]
  · refine ⟨"âš ï¸ *MARKET DATA ERROR* âš ï¸\n\n".toList ++
      "âŒ Unable to fetch data\n".toList ++
      "ğŸ” Error: ".toList ++ e.take 50 ++ "...\n\n".toList ++
      "ğŸ”„ ".toList,
      "\n".toList ++ "ğŸ¤– *".toList ++ BOT_NAME ++ "* v".toList ++ BOT_VERSION, ?_⟩
    simp [create_error_message, List.append_assoc]

/-- Witness for C5: with a JSON number as the market-listing body the
assembly raises a type error, and the composer returns the fallback. -/
theorem c5_composition_failure_fallback_witness :
    create_market_summary [] Option.none (Option.some (JVal.num 5)) Option.none
        Option.none Option.none Option.none =
      create_error_message ("TypeError: object is not iterable".toList) ∧
    create_error_message ("TypeError: object is not iterable".toList) =
      "âš ï¸ *MARKET DATA ERROR* âš ï¸\n\n".toList ++
      "âŒ Unable to fetch data\n".toList ++
      "ğŸ” Error: ".toList ++ ("TypeError: object is not iterable".toList).take 50 ++
      "...\n\n".toList ++
      "ğŸ”„ Try again in a few moments\n".toList ++
      "ğŸ¤– *".toList ++ BOT_NAME ++ "* v".toList ++ BOT_VERSION ∧
    (("TypeError: object is not iterable".toList).take 50).length ≤ 50 ∧
    (∃ s t : Str, create_error_message ("TypeError: object is not iterable".toList) =
      s ++ "Try again in a few moments".toList ++ t) :=
  c5_composition_failure_fallback [] Option.none (Option.some (JVal.num 5))
    Option.none Option.none Option.none Option.none
    ("TypeError: object is not iterable".toList) (by rfl)

/-! ### C6: section presence in the composed report -/

theorem bindM_inv {α β : Type _} {m : Except Str α} {f : α → Except Str β} {v : β}
    (h : (m >>= f) = Except.ok v) :
    ∃ w, m = Except.ok w ∧ f w = Except.ok v := by
  cases m with
  | error e => exact Except.noConfusion h
  | ok w => exact ⟨w, rfl, h⟩

theorem mapM_inv {α β : Type _} {f : α → β} {m : Except Str α} {v : β}
    (h : (f <$> m) = Except.ok v) :
    ∃ w, m = Except.ok w ∧ v = f w := by
  cases m with
  | error e => exact Except.noConfusion h
  | ok w =>
      refine ⟨w, rfl, ?_⟩
      injection h with h2
      exact h2.symm

theorem take_app_stable {α : Type _} {p : List α} (t : List α) {k : Nat}
    (hk : k ≤ p.length) : (p ++ t).take k = p.take k :=
  List.take_append_of_le_length hk

/-- A list whose `k`-prefix differs from `b`'s cannot extend `b`. -/
theorem ne_app {a b : Str} (k : Nat) (s : Str) (hkb : k ≤ b.length)
    (h : a.take k ≠ b.take k) : a ≠ b ++ s := by
  intro he
  apply h
  rw [he]
  exact take_app_stable s hkb

/-- Two lists extending prefixes that differ within `k` characters are
distinct. -/
theorem ne_app2 {a b : Str} (k : Nat) (r s : Str) (hka : k ≤ a.length)
    (hkb : k ≤ b.length) (h : a.take k ≠ b.take k) : a ++ r ≠ b ++ s := by
  intro he
  apply h
  rw [← take_app_stable r hka, ← take_app_stable s hkb, he]

/-- The fear/greed emoji is always one of the five concrete glyphs. -/
theorem fgEmoji_cases (v : ℤ) :
    get_fear_greed_emoji v = get_fear_greed_emoji 80 ∨
    get_fear_greed_emoji v = get_fear_greed_emoji 60 ∨
    get_fear_greed_emoji v = get_fear_greed_emoji 50 ∨
    get_fear_greed_emoji v = get_fear_greed_emoji 30 ∨
    get_fear_greed_emoji v = get_fear_greed_emoji 0 := by
  by_cases h1 : (75 : ℤ) ≤ v
  · exact Or.inl (by simp only [get_fear_greed_emoji]; rw [if_pos h1]; rfl)
  by_cases h2 : (55 : ℤ) ≤ v
  · exact Or.inr (Or.inl
      (by simp only [get_fear_greed_emoji]; rw [if_neg h1, if_pos h2]; rfl))
  by_cases h3 : (45 : ℤ) ≤ v
  · exact Or.inr (Or.inr (Or.inl
      (by simp only [get_fear_greed_emoji]; rw [if_neg h1, if_neg h2, if_pos h3]; rfl)))
  by_cases h4 : (25 : ℤ) ≤ v
  · exact Or.inr (Or.inr (Or.inr (Or.inl
      (by simp only [get_fear_greed_emoji]
          rw [if_neg h1, if_neg h2, if_neg h3, if_pos h4]
          rfl))))
  exact Or.inr (Or.inr (Or.inr (Or.inr
    (by simp only [get_fear_greed_emoji]
        rw [if_neg h1, if_neg h2, if_neg h3, if_neg h4]
        rfl))))

theorem enumFrom_bounds {α : Type _} :
    ∀ {n : Nat} {l : List α} {p : Nat × α},
      p ∈ List.enumFrom n l → n ≤ p.1 ∧ p.1 < n + l.length := by
  intro n l
  induction l generalizing n with
  | nil => intro p hp; cases hp
  | cons a t ih =>
      intro p hp
      simp only [List.enumFrom] at hp
      rcases List.mem_cons.mp hp with rfl | hp
      · exact ⟨le_refl n, by simp⟩
      · have h2 := ih hp
        exact ⟨by omega, by simp only [List.length_cons]; omega⟩

theorem mapE_mem_inv {α β : Type _} {f : α → Except Str β} :
    ∀ {l : List α} {ys : List β}, mapE f l = Except.ok ys →
      ∀ y ∈ ys, ∃ x ∈ l, f x = Except.ok y := by
  intro l
  induction l with
  | nil =>
      intro ys h y hy
      injection h with h
      rw [← h] at hy
      cases hy
  | cons a t ih =>
      intro ys h y hy
      simp only [mapE] at h
      obtain ⟨b, hb, h⟩ := bindM_inv h
      obtain ⟨bs, hbs, h2⟩ := mapM_inv h
      subst h2
      rcases List.mem_cons.mp hy with rfl | hy
      · exact ⟨a, List.mem_cons_self a t, hb⟩
      · obtain ⟨x, hx, hfx⟩ := ih hbs y hy
        exact ⟨x, List.mem_cons_of_mem a hx, hfx⟩

/-- Every line `moverLine` produces starts with its medal prefix. -/
theorem moverLine_shape {pre : Str} {c : JVal} {w : Str}
    (h : moverLine pre c = Except.ok w) : ∃ t, w = pre ++ t := by
  simp only [moverLine] at h
  obtain ⟨a1, _, h⟩ := bindM_inv h
  obtain ⟨a2, _, h⟩ := bindM_inv h
  obtain ⟨a3, _, h⟩ := bindM_inv h
  obtain ⟨a4, _, h⟩ := bindM_inv h
  obtain ⟨a5, _, h⟩ := bindM_inv h
  obtain ⟨a6, _, h⟩ := bindM_inv h
  injection h with h
  exact ⟨pyStr a2 ++ (" (".toList ++ (a4 ++ (") ".toList ++ a6))),
    by rw [← h]; simp [List.append_assoc]⟩

/-- Shape of the Bitcoin section: absent gives no lines, present gives a
`btcPre`-prefixed line and a blank line. -/
theorem btc_shape {b : Option BtcRec} {ls : List Str}
    (h : btcBlock b = Except.ok ls) :
    (b.isSome = false ∧ ls = []) ∨
    (b.isSome = true ∧ ∃ t, ls = [btcPre ++ t, []]) := by
  cases b with
  | none =>
      injection h with h
      exact Or.inl ⟨rfl, h.symm⟩
  | some rb =>
      simp only [btcBlock] at h
      obtain ⟨bp, _, h⟩ := bindM_inv h
      obtain ⟨bc, _, h⟩ := bindM_inv h
      injection h with h
      refine Or.inr ⟨rfl, ⟨bp ++ ([' '] ++ bc), ?_⟩⟩
      rw [← h]
      simp [List.append_assoc]

/-- Shape of the market-overview section. -/
theorem mo_shape {m : Option MarketOverview} {ls : List Str}
    (h : moBlock m = Except.ok ls) :
    (m.isSome = false ∧ ls = []) ∨
    (m.isSome = true ∧ ∃ t1 t2 t3,
      ls = [moHeader, totalCapPre ++ t1, change24Pre ++ t2, btcDomPre ++ t3, []]) := by
  cases m with
  | none =>
      injection h with h
      exact Or.inl ⟨rfl, h.symm⟩
  | some mo =>
      simp only [moBlock] at h
      obtain ⟨t1, _, h⟩ := bindM_inv h
      obtain ⟨t2, _, h⟩ := bindM_inv h
      obtain ⟨t3, _, h⟩ := bindM_inv h
      injection h with h
      refine Or.inr ⟨rfl, ⟨t1, t2, t3 ++ ['%'], ?_⟩⟩
      rw [← h]
      simp [List.append_assoc]

/-- Shape of the sentiment section. -/
theorem fg_shape (f : Option FearGreedRec) :
    (f.isSome = false ∧ fgBlock f = []) ∨
    (f.isSome = true ∧ ∃ v t1 t2, fgBlock f =
      [sentimentHeader, get_fear_greed_emoji v ++ t1, notePre ++ t2, []]) := by
  cases f with
  | none => exact Or.inl ⟨rfl, rfl⟩
  | some fgr =>
      refine Or.inr ⟨rfl, ⟨fgr.value,
        fearGreedMid ++ (intRepr fgr.value ++ "/100".toList),
        pyStr fgr.classification, ?_⟩⟩
      simp [fgBlock, List.append_assoc]

/-- Inversion for one arm of the movers section: whichever way the
truthiness checks go, the bound lines all carry the medal prefix and the
continuation is reached. -/
theorem movers_arm_cases {pre : Str} {K : List Str → Except Str (List Str)}
    {v : List Str} (g : Option JVal)
    (h : (match g with
          | Option.some gv =>
              if truthy gv = true then do
                let y ← (fun s => [s]) <$> moverLine pre gv
                K y
              else do
                let y ← Except.ok []
                K y
          | Option.none => do
              let y ← Except.ok []
              K y) = Except.ok v) :
    ∃ gl, K gl = Except.ok v ∧ ∀ x ∈ gl, ∃ t, x = pre ++ t := by
  split at h
  · split at h
    · obtain ⟨y, hy, h⟩ := bindM_inv h
      obtain ⟨w, hw, hy⟩ := mapM_inv hy
      obtain ⟨t, ht⟩ := moverLine_shape hw
      subst hy
      refine ⟨[w], h, ?_⟩
      intro x hx
      rcases List.mem_cons.mp hx with rfl | hx
      · exact ⟨t, ht⟩
      · cases hx
    · obtain ⟨y, hy, h⟩ := bindM_inv h
      injection hy with hy
      refine ⟨y, h, ?_⟩
      intro x hx
      rw [← hy] at hx
      cases hx
  · obtain ⟨y, hy, h⟩ := bindM_inv h
    injection hy with hy
    refine ⟨y, h, ?_⟩
    intro x hx
    rw [← hy] at hx
    cases hx

/-- Shape of the top-movers section: present exactly when gainer or
loser is truthy, mover lines carry the medal prefixes. -/
theorem movers_shape {g l : Option JVal} {ls : List Str}
    (h : moversBlock g l = Except.ok ls) :
    ((truthyOpt g || truthyOpt l) = false ∧ ls = []) ∨
    ((truthyOpt g || truthyOpt l) = true ∧ ∃ mid,
      ls = moversHeader :: (mid ++ [[]]) ∧
      ∀ x ∈ mid, (∃ t, x = goldPre ++ t) ∨ (∃ t, x = bronzePre ++ t)) := by
  by_cases hc : (truthyOpt g || truthyOpt l) = true
  · right
    refine ⟨hc, ?_⟩
    rw [moversBlock, if_pos hc] at h
    obtain ⟨gl, hK, hgl2⟩ := movers_arm_cases g h
    obtain ⟨ll, hK2, hll2⟩ := movers_arm_cases l hK
    injection hK2 with h2
    refine ⟨gl ++ ll, ?_, ?_⟩
    · rw [← h2]
      simp [List.append_assoc]
    · intro x hx
      rcases List.mem_append.mp hx with hx | hx
      · exact Or.inl (hgl2 x hx)
      · exact Or.inr (hll2 x hx)
  · left
    have hc2 : (truthyOpt g || truthyOpt l) = false := by
      revert hc
      cases (truthyOpt g || truthyOpt l) <;> simp
    rw [moversBlock, hc2] at h
    injection h with h
    exact ⟨hc2, h.symm⟩

/-- Shape of the trending section: lines are numbered `1.`/`2.`/`3.`. -/
theorem trend_shape {tr : List TrendingRec} {ls : List Str}
    (h : trendBlock tr = Except.ok ls) :
    (tr = [] ∧ ls = []) ∨
    (tr ≠ [] ∧ ∃ mid, ls = trendingHeader :: (mid ++ [[]]) ∧
      ∀ x ∈ mid, (∃ t, x = ['1'] ++ t) ∨ (∃ t, x = ['2'] ++ t) ∨
        (∃ t, x = ['3'] ++ t)) := by
  simp only [trendBlock] at h
  split at h
  · next he =>
      injection h with h
      exact Or.inl ⟨List.isEmpty_iff.mp he, h.symm⟩
  · next he =>
      right
      refine ⟨fun h0 => he (by simp [h0]), ?_⟩
      obtain ⟨lines, hlines, h⟩ := bindM_inv h
      injection h with h
      refine ⟨lines, by rw [← h]; simp, ?_⟩
      intro x hx
      obtain ⟨p, hp, hfx⟩ := mapE_mem_inv hlines x hx
      have hb := enumFrom_bounds hp
      have hlen : (tr.take 3).length ≤ 3 := List.length_take_le 3 tr
      obtain ⟨n1, _, hfx⟩ := bindM_inv hfx
      obtain ⟨n2, _, hfx⟩ := bindM_inv hfx
      injection hfx with hfx
      have hp1 : p.1 = 1 ∨ p.1 = 2 ∨ p.1 = 3 := by omega
      rcases hp1 with h1 | h1 | h1 <;> rw [h1] at hfx
      · exact Or.inl ⟨_, by rw [← hfx]; simp [List.append_assoc]; rfl⟩
      · exact Or.inr (Or.inl ⟨_, by rw [← hfx]; simp [List.append_assoc]; rfl⟩)
      · exact Or.inr (Or.inr ⟨_, by rw [← hfx]; simp [List.append_assoc]; rfl⟩)

/-- Shape of the DeFi section. -/
theorem defi_shape {df : List JVal} {ls : List Str}
    (h : defiBlock df = Except.ok ls) :
    (df = [] ∧ ls = []) ∨
    (df ≠ [] ∧ ∃ t1 t2 t3,
      ls = [defiHeader, starPre ++ t1, tvlPre ++ t2, defiCatPre ++ t3, []]) := by
  cases df with
  | nil =>
      injection h with h
      exact Or.inl ⟨rfl, h.symm⟩
  | cons d rest =>
      simp only [defiBlock] at h
      obtain ⟨a1, _, h⟩ := bindM_inv h
      obtain ⟨a2, _, h⟩ := bindM_inv h
      obtain ⟨a3, _, h⟩ := bindM_inv h
      obtain ⟨a4, _, h⟩ := bindM_inv h
      obtain ⟨a5, _, h⟩ := bindM_inv h
      obtain ⟨a6, _, h⟩ := bindM_inv h
      obtain ⟨a7, _, h⟩ := bindM_inv h
      obtain ⟨a8, _, h⟩ := bindM_inv h
      injection h with h
      refine Or.inr ⟨by simp, ⟨pyStr a8, a2 ++ ([' '] ++ a4), pyStr a6, ?_⟩⟩
      rw [← h]
      simp [List.append_assoc]

/-- Master shape of the assembled `message_parts`: every line is either
a header/footer line, a blank, or a line of a section whose data is
present; and each present section contributes its marker line. -/
theorem parts_shape {now : Str} {btc : Option BtcRec} {mo : Option MarketOverview}
    {fg : Option FearGreedRec} {g l : Option JVal} {tr : List TrendingRec}
    {df : List JVal} {parts : List Str}
    (h : buildParts now btc mo fg g l tr df = Except.ok parts) :
    (∀ x ∈ parts,
      x = headerLine ∨ (∃ t, x = dateLinePre ++ t) ∨ x = [] ∨
      (btc.isSome = true ∧ ∃ t, x = btcPre ++ t) ∨
      (mo.isSome = true ∧ (x = moHeader ∨ (∃ t, x = totalCapPre ++ t) ∨
        (∃ t, x = change24Pre ++ t) ∨ (∃ t, x = btcDomPre ++ t))) ∨
      (fg.isSome = true ∧ (x = sentimentHeader ∨
        (∃ v t, x = get_fear_greed_emoji v ++ t) ∨ (∃ t, x = notePre ++ t))) ∨
      ((truthyOpt g || truthyOpt l) = true ∧ (x = moversHeader ∨
        (∃ t, x = goldPre ++ t) ∨ (∃ t, x = bronzePre ++ t))) ∨
      (tr ≠ [] ∧ (x = trendingHeader ∨ (∃ t, x = ['1'] ++ t) ∨
        (∃ t, x = ['2'] ++ t) ∨ (∃ t, x = ['3'] ++ t))) ∨
      (df ≠ [] ∧ (x = defiHeader ∨ (∃ t, x = starPre ++ t) ∨
        (∃ t, x = tvlPre ++ t) ∨ (∃ t, x = defiCatPre ++ t))) ∨
      (x = footerBar ∨ x = botLine ∨ x = menuLine)) ∧
    (btc.isSome = true → ∃ t, (btcPre ++ t) ∈ parts) ∧
    (mo.isSome = true → moHeader ∈ parts) ∧
    (fg.isSome = true → sentimentHeader ∈ parts) ∧
    ((truthyOpt g || truthyOpt l) = true → moversHeader ∈ parts) ∧
    (tr ≠ [] → trendingHeader ∈ parts) ∧
    (df ≠ [] → defiHeader ∈ parts) ∧
    headerLine ∈ parts ∧ botLine ∈ parts := by
  simp only [buildParts] at h
  obtain ⟨btcP, hbtc, h⟩ := bindM_inv h
  obtain ⟨moP, hmo, h⟩ := bindM_inv h
  obtain ⟨mvP, hmv, h⟩ := bindM_inv h
  obtain ⟨trP, htr, h⟩ := bindM_inv h
  obtain ⟨dfP, hdf, h⟩ := bindM_inv h
  injection h with h
  subst h
  refine ⟨?_, ?_, ?_, ?_, ?_, ?_, ?_, ?_, ?_⟩
  · intro x hx
    simp only [List.mem_append] at hx
    rcases hx with ((((((hx | hx) | hx) | hx) | hx) | hx) | hx) | hx
    · simp only [headerLines, List.mem_cons, List.mem_nil_iff, or_false] at hx
      rcases hx with rfl | rfl | rfl
      · exact Or.inl rfl
      · exact Or.inr (Or.inl ⟨now, rfl⟩)
      · exact Or.inr (Or.inr (Or.inl rfl))
    · rcases btc_shape hbtc with ⟨_, rfl⟩ | ⟨hb, t, rfl⟩
      · cases hx
      · simp only [List.mem_cons, List.mem_nil_iff, or_false] at hx
        rcases hx with rfl | rfl
        · exact Or.inr (Or.inr (Or.inr (Or.inl ⟨hb, t, rfl⟩)))
        · exact Or.inr (Or.inr (Or.inl rfl))
    · rcases mo_shape hmo with ⟨_, rfl⟩ | ⟨hb, t1, t2, t3, rfl⟩
      · cases hx
      · simp only [List.mem_cons, List.mem_nil_iff, or_false] at hx
        rcases hx with rfl | rfl | rfl | rfl | rfl
        · exact Or.inr (Or.inr (Or.inr (Or.inr (Or.inl ⟨hb, Or.inl rfl⟩))))
        · exact Or.inr (Or.inr (Or.inr (Or.inr
            (Or.inl ⟨hb, Or.inr (Or.inl ⟨t1, rfl⟩)⟩))))
        · exact Or.inr (Or.inr (Or.inr (Or.inr
            (Or.inl ⟨hb, Or.inr (Or.inr (Or.inl ⟨t2, rfl⟩))⟩))))
        · exact Or.inr (Or.inr (Or.inr (Or.inr
            (Or.inl ⟨hb, Or.inr (Or.inr (Or.inr ⟨t3, rfl⟩))⟩))))
        · exact Or.inr (Or.inr (Or.inl rfl))
    · rcases fg_shape fg with ⟨_, he⟩ | ⟨hb, v, t1, t2, he⟩
      · rw [he] at hx
        cases hx
      · rw [he] at hx
        simp only [List.mem_cons, List.mem_nil_iff, or_false] at hx
        rcases hx with rfl | rfl | rfl | rfl
        · exact Or.inr (Or.inr (Or.inr (Or.inr (Or.inr
            (Or.inl ⟨hb, Or.inl rfl⟩)))))
        · exact Or.inr (Or.inr (Or.inr (Or.inr (Or.inr
            (Or.inl ⟨hb, Or.inr (Or.inl ⟨v, t1, rfl⟩)⟩)))))
        · exact Or.inr (Or.inr (Or.inr (Or.inr (Or.inr
            (Or.inl ⟨hb, Or.inr (Or.inr ⟨t2, rfl⟩)⟩)))))
        · exact Or.inr (Or.inr (Or.inl rfl))
    · rcases movers_shape hmv with ⟨_, rfl⟩ | ⟨hb, mid, rfl, hmid⟩
      · cases hx
      · rcases List.mem_cons.mp hx with rfl | hx
        · exact Or.inr (Or.inr (Or.inr (Or.inr (Or.inr (Or.inr
            (Or.inl ⟨hb, Or.inl rfl⟩))))))
        · rcases List.mem_append.mp hx with hx | hx
          · rcases hmid x hx with ⟨t, rfl⟩ | ⟨t, rfl⟩
            · exact Or.inr (Or.inr (Or.inr (Or.inr (Or.inr (Or.inr
                (Or.inl ⟨hb, Or.inr (Or.inl ⟨t, rfl⟩)⟩))))))
            · exact Or.inr (Or.inr (Or.inr (Or.inr (Or.inr (Or.inr
                (Or.inl ⟨hb, Or.inr (Or.inr ⟨t, rfl⟩)⟩))))))
          · rw [List.mem_singleton.mp hx]
            exact Or.inr (Or.inr (Or.inl rfl))
    · rcases trend_shape htr with ⟨_, rfl⟩ | ⟨hb, mid, rfl, hmid⟩
      · cases hx
      · rcases List.mem_cons.mp hx with rfl | hx
        · exact Or.inr (Or.inr (Or.inr (Or.inr (Or.inr (Or.inr (Or.inr
            (Or.inl ⟨hb, Or.inl rfl⟩)))))))
        · rcases List.mem_append.mp hx with hx | hx
          · rcases hmid x hx with ⟨t, rfl⟩ | ⟨t, rfl⟩ | ⟨t, rfl⟩
            · exact Or.inr (Or.inr (Or.inr (Or.inr (Or.inr (Or.inr (Or.inr
                (Or.inl ⟨hb, Or.inr (Or.inl ⟨t, rfl⟩)⟩)))))))
            · exact Or.inr (Or.inr (Or.inr (Or.inr (Or.inr (Or.inr (Or.inr
                (Or.inl ⟨hb, Or.inr (Or.inr (Or.inl ⟨t, rfl⟩))⟩)))))))
            · exact Or.inr (Or.inr (Or.inr (Or.inr (Or.inr (Or.inr (Or.inr
                (Or.inl ⟨hb, Or.inr (Or.inr (Or.inr ⟨t, rfl⟩))⟩)))))))
          · rw [List.mem_singleton.mp hx]
            exact Or.inr (Or.inr (Or.inl rfl))
    · rcases defi_shape hdf with ⟨_, rfl⟩ | ⟨hb, t1, t2, t3, rfl⟩
      · cases hx
      · simp only [List.mem_cons, List.mem_nil_iff, or_false] at hx
        rcases hx with rfl | rfl | rfl | rfl | rfl
        · exact Or.inr (Or.inr (Or.inr (Or.inr (Or.inr (Or.inr (Or.inr
            (Or.inr (Or.inl ⟨hb, Or.inl rfl⟩))))))))
        · exact Or.inr (Or.inr (Or.inr (Or.inr (Or.inr (Or.inr (Or.inr
            (Or.inr (Or.inl ⟨hb, Or.inr (Or.inl ⟨t1, rfl⟩)⟩))))))))
        · exact Or.inr (Or.inr (Or.inr (Or.inr (Or.inr (Or.inr (Or.inr
            (Or.inr (Or.inl ⟨hb, Or.inr (Or.inr (Or.inl ⟨t2, rfl⟩))⟩))))))))
        · exact Or.inr (Or.inr (Or.inr (Or.inr (Or.inr (Or.inr (Or.inr
            (Or.inr (Or.inl ⟨hb, Or.inr (Or.inr (Or.inr ⟨t3, rfl⟩))⟩))))))))
        · exact Or.inr (Or.inr (Or.inl rfl))
    · simp only [footerLines, List.mem_cons, List.mem_nil_iff, or_false] at hx
      rcases hx with rfl | rfl | rfl
      · exact Or.inr (Or.inr (Or.inr (Or.inr (Or.inr (Or.inr (Or.inr
          (Or.inr (Or.inr (Or.inl rfl)))))))))
      · exact Or.inr (Or.inr (Or.inr (Or.inr (Or.inr (Or.inr (Or.inr
          (Or.inr (Or.inr (Or.inr (Or.inl rfl))))))))))
      · exact Or.inr (Or.inr (Or.inr (Or.inr (Or.inr (Or.inr (Or.inr
          (Or.inr (Or.inr (Or.inr (Or.inr rfl))))))))))
  · intro hb
    rcases btc_shape hbtc with ⟨hb2, _⟩ | ⟨_, t, rfl⟩
    · rw [hb] at hb2
      cases hb2
    · exact ⟨t, by simp [List.mem_append]⟩
  · intro hb
    rcases mo_shape hmo with ⟨hb2, _⟩ | ⟨_, t1, t2, t3, rfl⟩
    · rw [hb] at hb2
      cases hb2
    · simp [List.mem_append]
  · intro hb
    rcases fg_shape fg with ⟨hb2, _⟩ | ⟨_, v, t1, t2, he⟩
    · rw [hb] at hb2
      cases hb2
    · simp [List.mem_append, he]
  · intro hb
    rcases movers_shape hmv with ⟨hb2, _⟩ | ⟨_, mid, rfl, _⟩
    · rw [hb] at hb2
      cases hb2
    · simp [List.mem_append]
  · intro hb
    rcases trend_shape htr with ⟨hb2, _⟩ | ⟨_, mid, rfl, _⟩
    · exact absurd hb2 hb
    · simp [List.mem_append]
  · intro hb
    rcases defi_shape hdf with ⟨hb2, _⟩ | ⟨_, t1, t2, t3, rfl⟩
    · exact absurd hb2 hb
    · simp [List.mem_append]
  · simp [List.mem_append, headerLines]
  · simp [List.mem_append, footerLines]

/-- C6: for every combination of present/absent adapter results the
composed `message_parts` contains each section's marker line exactly when
that section's data is present, independently of the other sections;
header and footer lines are always present; and with every adapter
absent the composition returns the non-empty header+footer report
without raising. -/
theorem c6_section_presence :
    ∀ (now : Str) (btc : Option BtcRec) (mo : Option MarketOverview)
      (fg : Option FearGreedRec) (g l : Option JVal) (tr : List TrendingRec)
      (df : List JVal) (parts : List Str),
      buildParts now btc mo fg g l tr df = Except.ok parts →
      ((moHeader ∈ parts) ↔ mo.isSome = true) ∧
      ((sentimentHeader ∈ parts) ↔ fg.isSome = true) ∧
      ((moversHeader ∈ parts) ↔ (truthyOpt g || truthyOpt l) = true) ∧
      ((trendingHeader ∈ parts) ↔ tr ≠ []) ∧
      ((defiHeader ∈ parts) ↔ df ≠ []) ∧
      ((∃ r, (btcPre ++ r) ∈ parts) ↔ btc.isSome = true) ∧
      headerLine ∈ parts ∧ botLine ∈ parts ∧
      buildSummary now Option.none Option.none Option.none Option.none
          Option.none Option.none =
        Except.ok (joinLines (headerLines now ++ footerLines)) ∧
      joinLines (headerLines now ++ footerLines) ≠ [] := by
  intro now btc mo fg g l tr df parts h
  obtain ⟨hall, hbtcP, hmoP, hfgP, hmvP, htrP, hdfP, hhdr, hbot⟩ := parts_shape h
  refine ⟨⟨?_, hmoP⟩, ⟨?_, hfgP⟩, ⟨?_, hmvP⟩, ⟨?_, htrP⟩, ⟨?_, hdfP⟩,
    ⟨?_, hbtcP⟩, hhdr, hbot, by rfl, ?_⟩
  · intro hmem
    rcases hall moHeader hmem with hx | ⟨t, hx⟩ | hx | ⟨_, t, hx⟩ | ⟨hb, _⟩ |
      ⟨_, hx | ⟨v, t, hx⟩ | ⟨t, hx⟩⟩ | ⟨_, hx | ⟨t, hx⟩ | ⟨t, hx⟩⟩ |
      ⟨_, hx | ⟨t, hx⟩ | ⟨t, hx⟩ | ⟨t, hx⟩⟩ |
      ⟨_, hx | ⟨t, hx⟩ | ⟨t, hx⟩ | ⟨t, hx⟩⟩ | (hx | hx | hx)
    · exact absurd hx (by decide)
    · exact absurd hx (ne_app dateLinePre.length t (le_refl _) (by decide))
    · exact absurd hx (by decide)
    · exact absurd hx (ne_app btcPre.length t (le_refl _) (by decide))
    · exact hb
    · exact absurd hx (by decide)
    · rcases fgEmoji_cases v with he | he | he | he | he <;> rw [he] at hx <;>
        exact absurd hx (ne_app 3 t (by decide) (by decide))
    · exact absurd hx (ne_app notePre.length t (le_refl _) (by decide))
    · exact absurd hx (by decide)
    · exact absurd hx (ne_app goldPre.length t (le_refl _) (by decide))
    · exact absurd hx (ne_app bronzePre.length t (le_refl _) (by decide))
    · exact absurd hx (by decide)
    · exact absurd hx (ne_app 1 t (by decide) (by decide))
    · exact absurd hx (ne_app 1 t (by decide) (by decide))
    · exact absurd hx (ne_app 1 t (by decide) (by decide))
    · exact absurd hx (by decide)
    · exact absurd hx (ne_app starPre.length t (le_refl _) (by decide))
    · exact absurd hx (ne_app tvlPre.length t (le_refl _) (by decide))
    · exact absurd hx (ne_app defiCatPre.length t (le_refl _) (by decide))
    · exact absurd hx (by decide)
    · exact absurd hx (by decide)
    · exact absurd hx (by decide)
  · intro hmem
    rcases hall sentimentHeader hmem with hx | ⟨t, hx⟩ | hx | ⟨_, t, hx⟩ |
      ⟨_, hx | ⟨t, hx⟩ | ⟨t, hx⟩ | ⟨t, hx⟩⟩ | ⟨hb, _⟩ |
      ⟨_, hx | ⟨t, hx⟩ | ⟨t, hx⟩⟩ |
      ⟨_, hx | ⟨t, hx⟩ | ⟨t, hx⟩ | ⟨t, hx⟩⟩ |
      ⟨_, hx | ⟨t, hx⟩ | ⟨t, hx⟩ | ⟨t, hx⟩⟩ | (hx | hx | hx)
    · exact absurd hx (by decide)
    · exact absurd hx (ne_app dateLinePre.length t (le_refl _) (by decide))
    · exact absurd hx (by decide)
    · exact absurd hx (ne_app btcPre.length t (le_refl _) (by decide))
    · exact absurd hx (by decide)
    · exact absurd hx (ne_app totalCapPre.length t (le_refl _) (by decide))
    · exact absurd hx (ne_app change24Pre.length t (le_refl _) (by decide))
    · exact absurd hx (ne_app btcDomPre.length t (le_refl _) (by decide))
    · exact hb
    · exact absurd hx (by decide)
    · exact absurd hx (ne_app goldPre.length t (le_refl _) (by decide))
    · exact absurd hx (ne_app bronzePre.length t (le_refl _) (by decide))
    · exact absurd hx (by decide)
    · exact absurd hx (ne_app 1 t (by decide) (by decide))
    · exact absurd hx (ne_app 1 t (by decide) (by decide))
    · exact absurd hx (ne_app 1 t (by decide) (by decide))
    · exact absurd hx (by decide)
    · exact absurd hx (ne_app starPre.length t (le_refl _) (by decide))
    · exact absurd hx (ne_app tvlPre.length t (le_refl _) (by decide))
    · exact absurd hx (ne_app defiCatPre.length t (le_refl _) (by decide))
    · exact absurd hx (by decide)
    · exact absurd hx (by decide)
    · exact absurd hx (by decide)
  · intro hmem
    rcases hall moversHeader hmem with hx | ⟨t, hx⟩ | hx | ⟨_, t, hx⟩ |
      ⟨_, hx | ⟨t, hx⟩ | ⟨t, hx⟩ | ⟨t, hx⟩⟩ |
      ⟨_, hx | ⟨v, t, hx⟩ | ⟨t, hx⟩⟩ | ⟨hb, _⟩ |
      ⟨_, hx | ⟨t, hx⟩ | ⟨t, hx⟩ | ⟨t, hx⟩⟩ |
      ⟨_, hx | ⟨t, hx⟩ | ⟨t, hx⟩ | ⟨t, hx⟩⟩ | (hx | hx | hx)
    · exact absurd hx (by decide)
    · exact absurd hx (ne_app dateLinePre.length t (le_refl _) (by decide))
    · exact absurd hx (by decide)
    · exact absurd hx (ne_app btcPre.length t (le_refl _) (by decide))
    · exact absurd hx (by decide)
    · exact absurd hx (ne_app totalCapPre.length t (le_refl _) (by decide))
    · exact absurd hx (ne_app change24Pre.length t (le_refl _) (by decide))
    · exact absurd hx (ne_app btcDomPre.length t (le_refl _) (by decide))
    · exact absurd hx (by decide)
    · rcases fgEmoji_cases v with he | he | he | he | he <;> rw [he] at hx <;>
        exact absurd hx (ne_app 3 t (by decide) (by decide))
    · exact absurd hx (ne_app notePre.length t (le_refl _) (by decide))
    · exact hb
    · exact absurd hx (by decide)
    · exact absurd hx (ne_app 1 t (by decide) (by decide))
    · exact absurd hx (ne_app 1 t (by decide) (by decide))
    · exact absurd hx (ne_app 1 t (by decide) (by decide))
    · exact absurd hx (by decide)
    · exact absurd hx (ne_app starPre.length t (le_refl _) (by decide))
    · exact absurd hx (ne_app tvlPre.length t (le_refl _) (by decide))
    · exact absurd hx (ne_app defiCatPre.length t (le_refl _) (by decide))
    · exact absurd hx (by decide)
    · exact absurd hx (by decide)
    · exact absurd hx (by decide)
  · intro hmem
    rcases hall trendingHeader hmem with hx | ⟨t, hx⟩ | hx | ⟨_, t, hx⟩ |
      ⟨_, hx | ⟨t, hx⟩ | ⟨t, hx⟩ | ⟨t, hx⟩⟩ |
      ⟨_, hx | ⟨v, t, hx⟩ | ⟨t, hx⟩⟩ |
      ⟨_, hx | ⟨t, hx⟩ | ⟨t, hx⟩⟩ | ⟨hb, _⟩ |
      ⟨_, hx | ⟨t, hx⟩ | ⟨t, hx⟩ | ⟨t, hx⟩⟩ | (hx | hx | hx)
    · exact absurd hx (by decide)
    · exact absurd hx (ne_app dateLinePre.length t (le_refl _) (by decide))
    · exact absurd hx (by decide)
    · exact absurd hx (ne_app btcPre.length t (le_refl _) (by decide))
    · exact absurd hx (by decide)
    · exact absurd hx (ne_app totalCapPre.length t (le_refl _) (by decide))
    · exact absurd hx (ne_app change24Pre.length t (le_refl _) (by decide))
    · exact absurd hx (ne_app btcDomPre.length t (le_refl _) (by decide))
    · exact absurd hx (by decide)
    · rcases fgEmoji_cases v with he | he | he | he | he <;> rw [he] at hx <;>
        exact absurd hx (ne_app 3 t (by decide) (by decide))
    · exact absurd hx (ne_app notePre.length t (le_refl _) (by decide))
    · exact absurd hx (by decide)
    · exact absurd hx (ne_app goldPre.length t (le_refl _) (by decide))
    · exact absurd hx (ne_app bronzePre.length t (le_refl _) (by decide))
    · exact hb
    · exact absurd hx (by decide)
    · exact absurd hx (ne_app starPre.length t (le_refl _) (by decide))
    · exact absurd hx (ne_app tvlPre.length t (le_refl _) (by decide))
    · exact absurd hx (ne_app defiCatPre.length t (le_refl _) (by decide))
    · exact absurd hx (by decide)
    · exact absurd hx (by decide)
    · exact absurd hx (by decide)
  · intro hmem
    rcases hall defiHeader hmem with hx | ⟨t, hx⟩ | hx | ⟨_, t, hx⟩ |
      ⟨_, hx | ⟨t, hx⟩ | ⟨t, hx⟩ | ⟨t, hx⟩⟩ |
      ⟨_, hx | ⟨v, t, hx⟩ | ⟨t, hx⟩⟩ |
      ⟨_, hx | ⟨t, hx⟩ | ⟨t, hx⟩⟩ |
      ⟨_, hx | ⟨t, hx⟩ | ⟨t, hx⟩ | ⟨t, hx⟩⟩ | ⟨hb, _⟩ | (hx | hx | hx)
    · exact absurd hx (by decide)
    · exact absurd hx (ne_app dateLinePre.length t (le_refl _) (by decide))
    · exact absurd hx (by decide)
    · exact absurd hx (ne_app btcPre.length t (le_refl _) (by decide))
    · exact absurd hx (by decide)
    · exact absurd hx (ne_app totalCapPre.length t (le_refl _) (by decide))
    · exact absurd hx (ne_app change24Pre.length t (le_refl _) (by decide))
    · exact absurd hx (ne_app btcDomPre.length t (le_refl _) (by decide))
    · exact absurd hx (by decide)
    · rcases fgEmoji_cases v with he | he | he | he | he <;> rw [he] at hx <;>
        exact absurd hx (ne_app 3 t (by decide) (by decide))
    · exact absurd hx (ne_app notePre.length t (le_refl _) (by decide))
    · exact absurd hx (by decide)
    · exact absurd hx (ne_app goldPre.length t (le_refl _) (by decide))
    · exact absurd hx (ne_app bronzePre.length t (le_refl _) (by decide))
    · exact absurd hx (by decide)
    · exact absurd hx (ne_app 1 t (by decide) (by decide))
    · exact absurd hx (ne_app 1 t (by decide) (by decide))
    · exact absurd hx (ne_app 1 t (by decide) (by decide))
    · exact hb
    · exact absurd hx (by decide)
    · exact absurd hx (by decide)
    · exact absurd hx (by decide)
  · intro hmem
    obtain ⟨r, hr⟩ := hmem
    rcases hall (btcPre ++ r) hr with hx | ⟨t, hx⟩ | hx | ⟨hb, _⟩ |
      ⟨_, hx | ⟨t, hx⟩ | ⟨t, hx⟩ | ⟨t, hx⟩⟩ |
      ⟨_, hx | ⟨v, t, hx⟩ | ⟨t, hx⟩⟩ |
      ⟨_, hx | ⟨t, hx⟩ | ⟨t, hx⟩⟩ |
      ⟨_, hx | ⟨t, hx⟩ | ⟨t, hx⟩ | ⟨t, hx⟩⟩ |
      ⟨_, hx | ⟨t, hx⟩ | ⟨t, hx⟩ | ⟨t, hx⟩⟩ | (hx | hx | hx)
    · exact absurd hx.symm (ne_app btcPre.length r (le_refl _) (by decide))
    · exact absurd hx (ne_app2 1 r t (by decide) (by decide) (by decide))
    · rcases List.append_eq_nil.mp hx with ⟨h1, _⟩
      exact absurd h1 (by decide)
    · exact hb
    · exact absurd hx.symm (ne_app btcPre.length r (le_refl _) (by decide))
    · exact absurd hx (ne_app2 1 r t (by decide) (by decide) (by decide))
    · exact absurd hx (ne_app2 1 r t (by decide) (by decide) (by decide))
    · exact absurd hx (ne_app2 5 r t (by decide) (by decide) (by decide))
    · exact absurd hx.symm (ne_app btcPre.length r (le_refl _) (by decide))
    · rcases fgEmoji_cases v with he | he | he | he | he <;> rw [he] at hx <;>
        exact absurd hx (ne_app2 1 r t (by decide) (by decide) (by decide))
    · exact absurd hx (ne_app2 1 r t (by decide) (by decide) (by decide))
    · exact absurd hx.symm (ne_app btcPre.length r (le_refl _) (by decide))
    · exact absurd hx (ne_app2 1 r t (by decide) (by decide) (by decide))
    · exact absurd hx (ne_app2 1 r t (by decide) (by decide) (by decide))
    · exact absurd hx.symm (ne_app btcPre.length r (le_refl _) (by decide))
    · exact absurd hx (ne_app2 1 r t (by decide) (by decide) (by decide))
    · exact absurd hx (ne_app2 1 r t (by decide) (by decide) (by decide))
    · exact absurd hx (ne_app2 1 r t (by decide) (by decide) (by decide))
    · exact absurd hx.symm (ne_app btcPre.length r (le_refl _) (by decide))
    · exact absurd hx (ne_app2 2 r t (by decide) (by decide) (by decide))
    · exact absurd hx (ne_app2 1 r t (by decide) (by decide) (by decide))
    · exact absurd hx (ne_app2 1 r t (by decide) (by decide) (by decide))
    · exact absurd hx.symm (ne_app 2 r (by decide) (by decide))
    · exact absurd hx.symm (ne_app 1 r (by decide) (by decide))
    · exact absurd hx.symm (ne_app 1 r (by decide) (by decide))
  · intro h0
    have hsh : ∃ rest, joinLines (headerLines now ++ footerLines) =
        headerLine ++ rest := ⟨_, rfl⟩
    obtain ⟨rest, hr⟩ := hsh
    rw [hr] at h0
    rcases List.append_eq_nil.mp h0 with ⟨h1, _⟩
    exact absurd h1 (by decide)

/-- Witness for C6 at the all-absent input: the composition succeeds,
keeps header and footer, and includes no section marker. -/
theorem c6_section_presence_witness :
    ((moHeader ∈ headerLines [] ++ footerLines) ↔
      (Option.none : Option MarketOverview).isSome = true) ∧
    ((sentimentHeader ∈ headerLines [] ++ footerLines) ↔
      (Option.none : Option FearGreedRec).isSome = true) ∧
    ((moversHeader ∈ headerLines [] ++ footerLines) ↔
      (truthyOpt Option.none || truthyOpt Option.none) = true) ∧
    ((trendingHeader ∈ headerLines [] ++ footerLines) ↔
      ([] : List TrendingRec) ≠ []) ∧
    ((defiHeader ∈ headerLines [] ++ footerLines) ↔ ([] : List JVal) ≠ []) ∧
    ((∃ r, (btcPre ++ r) ∈ headerLines [] ++ footerLines) ↔
      (Option.none : Option BtcRec).isSome = true) ∧
    headerLine ∈ headerLines [] ++ footerLines ∧
    botLine ∈ headerLines [] ++ footerLines ∧
    buildSummary [] Option.none Option.none Option.none Option.none Option.none
        Option.none = Except.ok (joinLines (headerLines [] ++ footerLines)) ∧
    joinLines (headerLines [] ++ footerLines) ≠ [] :=
  c6_section_presence [] Option.none Option.none Option.none Option.none
    Option.none [] [] (headerLines [] ++ footerLines) (by rfl)

end AlphaScope
